import Mathlib

/-!
Shallow embedding of the seedup repository (Go) for verification.

The embedding translates the pure computational content of
`pkg/pgconn/serialize.go`, `pkg/pgconn/pgconn.go`, `pkg/seed/apply.go`,
`pkg/seed/create.go` and the schema dumper (`DumpSchema`) into Lean
definitions.  Database effects (queries, transactions, the file system)
are modeled by explicit state passing: the database is a log of executed
statements, a transaction is a pending copy of that log, and every
fallible operation is parameterized by an oracle returning `Except`.

Byte strings (`[]byte`) are modeled by their textual content; Go's
`strings.ToLower` is modeled per `Char` (type names are ASCII); Go's
`sort.Strings` is modeled by insertion sort, which agrees with any
correct sort on `String` lists because equal strings are identical.
-/

namespace Seedup

/-- Model of Go `strings.HasPrefix` on rune lists (byte-wise on ASCII). -/
def isPrefixB : List Char → List Char → Bool
  | [], _ => true
  | _ :: _, [] => false
  | a :: as, b :: bs => a == b && isPrefixB as bs

/-- Model of Go `strings.HasSuffix`. -/
def isSuffixB (p s : List Char) : Bool := isPrefixB p.reverse s.reverse

/-- Model of Go `strings.Contains`: `pat` occurs contiguously in `s`. -/
def containsSub : List Char → List Char → Bool
  | [], pat => isPrefixB pat []
  | a :: rest, pat => isPrefixB pat (a :: rest) || containsSub rest pat

/-- `strings.HasPrefix(s, pre)`. -/
def startsWithStr (s pre : String) : Bool := isPrefixB pre.data s.data

/-- `strings.HasSuffix(s, suf)`. -/
def endsWithStr (s suf : String) : Bool := isSuffixB suf.data s.data

/-- `strings.Contains(s, pat)`. -/
def containsStr (s pat : String) : Bool := containsSub s.data pat.data

/-- `strings.ToLower` (ASCII; the type names dispatched on are ASCII). -/
def toLowerStr (s : String) : String := String.mk (s.data.map Char.toLower)

/-- The single-quote character (ASCII 39). -/
def squote : Char := Char.ofNat 39

/-- The single-quote character as a string. -/
def squoteS : String := String.singleton squote

/-- Model of `strings.ReplaceAll(s, sq, sqsq)`: double every single quote. -/
def escapeQuotesList : List Char → List Char
  | [] => []
  | c :: cs =>
      if c = squote then squote :: squote :: escapeQuotesList cs
      else c :: escapeQuotesList cs

/-- `QuoteString` from serialize.go: double embedded single quotes and
wrap in single quotes, with an `E` prefix when the value contains a
backslash. -/
def QuoteString (s : String) : String :=
  let escaped := String.mk (escapeQuotesList s.data)
  if s.data.contains '\\' then "E" ++ squoteS ++ escaped ++ squoteS
  else squoteS ++ escaped ++ squoteS

/-- The pattern `$tag$` searched for by `quoteDollar`. -/
def dollarWrap (tag : List Char) : List Char := '$' :: tag ++ ['$']

/-- The tag-search loop of `quoteDollar`: extend the tag with `q` while
`$tag$` occurs in the payload.  Fuel `s.length + 1` always suffices
because a tag longer than the payload cannot occur inside it (proved
below). -/
def findTagAux : Nat → List Char → List Char → List Char
  | 0, _, tag => tag
  | fuel + 1, s, tag =>
      if containsSub s (dollarWrap tag) then findTagAux fuel s (tag ++ ['q'])
      else tag

/-- The chosen dollar-quoting tag for a payload. -/
def chosenTag (s : String) : String :=
  String.mk (findTagAux (s.data.length + 1) s.data ['q'])

/-- `quoteDollar` from serialize.go. -/
def quoteDollar (s : String) : String :=
  let tag := chosenTag s
  "$" ++ tag ++ "$" ++ s ++ "$" ++ tag ++ "$"

/-- Model of a Go `time.Time` value: calendar fields, sub-second
nanoseconds and the zone offset in minutes east of UTC. -/
structure GoTime where
  year : Nat
  month : Nat
  day : Nat
  hour : Nat
  minute : Nat
  second : Nat
  nanos : Nat
  offsetMin : Int
deriving DecidableEq

/-- Zero-pad to two digits (Go layout `01`, `02`, `15`, `04`, `05`). -/
def pad2 (n : Nat) : String := if n < 10 then "0" ++ toString n else toString n

/-- Zero-pad to four digits (Go layout `2006`). -/
def pad4 (n : Nat) : String :=
  if n < 10 then "000" ++ toString n
  else if n < 100 then "00" ++ toString n
  else if n < 1000 then "0" ++ toString n
  else toString n

/-- Zero-pad to six digits. -/
def pad6 (n : Nat) : String :=
  if n < 10 then "00000" ++ toString n
  else if n < 100 then "0000" ++ toString n
  else if n < 1000 then "000" ++ toString n
  else if n < 10000 then "00" ++ toString n
  else if n < 100000 then "0" ++ toString n
  else toString n

/-- Drop trailing `0` digits (Go fractional layout `.999999` trims
trailing zeros). -/
def trimZeros (l : List Char) : List Char :=
  (l.reverse.dropWhile (fun c => c == '0')).reverse

/-- Go layout fragment `.999999`: microsecond fraction with trailing
zeros (and the dot, when the fraction is zero) removed. -/
def fraction6 (nanos : Nat) : String :=
  let micro := nanos / 1000
  if micro == 0 then "" else "." ++ String.mk (trimZeros (pad6 micro).data)

/-- Go layout fragment `-07:00`: signed zone offset as `hh:mm`. -/
def offsetColon (off : Int) : String :=
  (if off < 0 then "-" else "+") ++ pad2 (off.natAbs / 60) ++ ":" ++ pad2 (off.natAbs % 60)

/-- Go layout `2006-01-02`. -/
def formatDate (t : GoTime) : String :=
  pad4 t.year ++ "-" ++ pad2 t.month ++ "-" ++ pad2 t.day

/-- Go layout `15:04:05.999999`. -/
def formatClock (t : GoTime) : String :=
  pad2 t.hour ++ ":" ++ pad2 t.minute ++ ":" ++ pad2 t.second ++ fraction6 t.nanos

/-- Go layout `2006-01-02 15:04:05.999999`. -/
def formatTimestamp (t : GoTime) : String := formatDate t ++ " " ++ formatClock t

/-- Go layout `2006-01-02 15:04:05.999999-07:00`. -/
def formatTimestampTZ (t : GoTime) : String := formatTimestamp t ++ offsetColon t.offsetMin

/-- Go layout `15:04:05.999999-07:00`. -/
def formatTimeTZ (t : GoTime) : String := formatClock t ++ offsetColon t.offsetMin

/-- Approximation of the default (`%v`) textual form of a `time.Time`
(the zone abbreviation is not modeled).  It is only reachable for a
time value under a non-temporal declared type, which no claim involves. -/
def goFmtTime (t : GoTime) : String := formatTimestampTZ t

/-- `ColumnInfo` from serialize.go. -/
structure ColumnInfo where
  Name : String
  DataType : String
deriving DecidableEq

/-- The universe of scanned Go values relevant to serialization:
`nil`, `[]byte` (payload modeled as its byte string), `string`,
integers, `bool` and `time.Time`. -/
inductive GoValue where
  | vnull
  | vbytes (data : String)
  | vstr (s : String)
  | vint (n : Int)
  | vbool (b : Bool)
  | vtime (t : GoTime)
deriving DecidableEq

/-- Lowercase hex digit. -/
def hexDigit (n : Nat) : Char :=
  if n < 10 then Char.ofNat (48 + n) else Char.ofNat (87 + n)

/-- Go `%x` of a byte slice: two lowercase hex digits per byte. -/
def hexOfString (s : String) : String :=
  String.mk (List.flatten ((s.toUTF8.toList).map (fun b => [hexDigit (b.toNat / 16), hexDigit (b.toNat % 16)])))

/-- Go `fmt.Sprintf("%v", value)` for the modeled value universe. -/
def goFmt : GoValue → String
  | .vnull => "<nil>"
  | .vbytes b => b
  | .vstr s => s
  | .vint n => toString n
  | .vbool b => if b then "true" else "false"
  | .vtime t => goFmtTime t

/-- The big type-dispatch switch of `SerializeValue` (serialize.go lines
127-252), applied to a non-`[]byte`, non-nil value and the lowercased
type name.  The branch order mirrors the Go switch exactly. -/
def serializeNonBytes (v : GoValue) (nt : String) : String :=
  if nt == "boolean" || nt == "bool" then goFmt v
  else if nt == "integer" || nt == "int" || nt == "bigint" || nt == "smallint"
      || nt == "serial" || nt == "bigserial" then goFmt v
  else if nt == "real" || nt == "double precision" || nt == "numeric"
      || nt == "decimal" || startsWithStr nt "numeric(" then goFmt v
  else if nt == "timestamp without time zone" || nt == "timestamp"
      || startsWithStr nt "timestamp(" then
    match v with
    | .vtime t => QuoteString (formatTimestamp t)
    | _ => QuoteString (goFmt v)
  else if nt == "timestamp with time zone" || nt == "timestamptz"
      || (startsWithStr nt "timestamp(" && containsStr nt "with time zone") then
    match v with
    | .vtime t => QuoteString (formatTimestampTZ t)
    | _ => QuoteString (goFmt v)
  else if nt == "date" then
    match v with
    | .vtime t => QuoteString (formatDate t)
    | _ => QuoteString (goFmt v)
  else if nt == "time without time zone" || nt == "time" || startsWithStr nt "time(" then
    match v with
    | .vtime t => QuoteString (formatClock t)
    | _ => QuoteString (goFmt v)
  else if nt == "time with time zone" || nt == "timetz" then
    match v with
    | .vtime t => QuoteString (formatTimeTZ t)
    | _ => QuoteString (goFmt v)
  else if nt == "interval" then QuoteString (goFmt v)
  else if nt == "uuid" then QuoteString (goFmt v)
  else if nt == "json" || nt == "jsonb" then QuoteString (goFmt v)
  else if nt == "numrange" || nt == "int4range" || nt == "int8range"
      || nt == "tsrange" || nt == "tstzrange" || nt == "daterange" then
    QuoteString (goFmt v)
  else if endsWithStr nt "[]" then quoteDollar (goFmt v)
  else if nt == "text" || nt == "character varying" || startsWithStr nt "character varying("
      || nt == "varchar" || startsWithStr nt "varchar("
      || nt == "character" || startsWithStr nt "character("
      || nt == "char" || startsWithStr nt "char("
      || nt == "name" || nt == "citext" then
    QuoteString (goFmt v)
  else if nt == "bytea" then
    match v with
    | .vbytes b => squoteS ++ "\\x" ++ hexOfString b ++ squoteS
    | _ => QuoteString (goFmt v)
  else if nt == "inet" || nt == "cidr" || nt == "macaddr" || nt == "macaddr8" then
    QuoteString (goFmt v)
  else if nt == "point" || nt == "line" || nt == "lseg" || nt == "box"
      || nt == "path" || nt == "polygon" || nt == "circle" then
    QuoteString (goFmt v)
  else QuoteString (goFmt v)

/-- `SerializeValue` from serialize.go: the early `[]byte` type switch
(lines 101-122, checking `bytea` on the raw type name and the array
suffix on the lowercased one), then the normalized-type dispatch. -/
def SerializeValue (value : GoValue) (pgType : String) : String :=
  match value with
  | .vnull => "NULL"
  | .vbytes b =>
      if startsWithStr pgType "bytea" then squoteS ++ "\\x" ++ hexOfString b ++ squoteS
      else if endsWithStr (toLowerStr pgType) "[]" then quoteDollar b
      else QuoteString b
  | v => serializeNonBytes v (toLowerStr pgType)

/-- `SerializeRow` from serialize.go: one literal per value; a value
whose index has no column is serialized under the empty type name. -/
def SerializeRow : List GoValue → List ColumnInfo → List String
  | [], _ => []
  | v :: vs, [] => SerializeValue v "" :: SerializeRow vs []
  | v :: vs, c :: cs => SerializeValue v c.DataType :: SerializeRow vs cs

/-- Go `strings.Join(parts, sep)`. -/
def joinSep (sep : String) : List String → String
  | [] => ""
  | [s] => s
  | s :: rest => s ++ sep ++ joinSep sep rest

/-- `escapeDoubleQuotes` from pgconn.go (byte-wise in Go; the quote byte
cannot occur inside a multi-byte UTF-8 sequence, so per-`Char` agrees). -/
def escapeDoubleQuotes (s : String) : String :=
  String.mk (s.data.foldr (fun c acc => if c = '"' then '"' :: '"' :: acc else c :: acc) [])

/-- `QuoteIdentifier` from pgconn.go. -/
def QuoteIdentifier (s : String) : String := "\"" ++ escapeDoubleQuotes s ++ "\""

/-- Byte-wise lexicographic comparison of rune lists (Go compares
strings byte-wise; on valid UTF-8 this equals code-point order). -/
def leChars : List Char → List Char → Bool
  | [], _ => true
  | _ :: _, [] => false
  | a :: as, b :: bs =>
      if a.toNat < b.toNat then true
      else if b.toNat < a.toNat then false
      else leChars as bs

/-- String comparison used by the sort model. -/
def leStr (a b : String) : Bool := leChars a.data b.data

/-- Sorted insertion. -/
def orderedInsertStr (x : String) : List String → List String
  | [] => [x]
  | y :: ys => if leStr x y then x :: y :: ys else y :: orderedInsertStr x ys

/-- Model of Go `sort.Strings`.  Any correct sort coincides with this one
on `String` lists because equal strings are identical. -/
def sortStrings : List String → List String
  | [] => []
  | x :: xs => orderedInsertStr x (sortStrings xs)

/-- The dependency lists built by `getImportOrder` (apply.go lines
153-171): `deps[t]` collects, in row order, the referenced table of each
scanned FK row whose dependent is `t`, keeping only edges between tables
in the working set.  The FK query is `SELECT DISTINCT`, so callers may
assume the row list has no duplicate pairs. -/
def depsOf (tables : List String) (rows : List (String × String)) (t : String) : List String :=
  (rows.filter (fun p => p.1 == t && tables.contains p.1 && tables.contains p.2)).map (fun p => p.2)

/-- One inner step of the decrement loop (apply.go lines 206-216): if
this dependency entry equals the just-emitted table, decrement the
dependent's counter, and when the counter hits exactly zero enqueue the
dependent and re-sort the queue. -/
def decStep (other emitted : String) (st : (String → Int) × List String) (dep : String) :
    (String → Int) × List String :=
  if dep == emitted then
    let d := st.1 other - 1
    let deg2 : String → Int := fun t => if t == other then d else st.1 t
    if d == 0 then (deg2, sortStrings (st.2 ++ [other])) else (deg2, st.2)
  else st

/-- The full decrement pass run after emitting one table.  Go iterates
the `deps` map, whose keys are the distinct working-set tables; since
the queue is re-sorted after every insertion and counters of distinct
keys are independent, the iteration order is immaterial, and we iterate
`tables.dedup`. -/
def processEmit (tables : List String) (rows : List (String × String)) (emitted : String)
    (deg : String → Int) (q : List String) : (String → Int) × List String :=
  (tables.dedup).foldl
    (fun st other => (depsOf tables rows other).foldl (decStep other emitted) st) (deg, q)

/-- The Kahn worklist loop of `getImportOrder` (apply.go lines 199-217).
The loop pops the head of the sorted queue, appends it to the result and
runs the decrement pass.  Each table enters the queue at most twice over
a run (once per occurrence at in-degree zero initially, at most once by
a counter reaching zero), so `2 * tables.length + 1` fuel always lets
the loop run until the queue empties. -/
def kahnLoop (tables : List String) (rows : List (String × String)) :
    Nat → (String → Int) → List String → List String → List String
  | 0, _, _, result => result
  | fuel + 1, deg, queue, result =>
      match queue with
      | [] => result
      | table :: rest =>
          let st := processEmit tables rows table deg rest
          kahnLoop tables rows fuel st.1 st.2 (result ++ [table])

/-- `getImportOrder` from apply.go (success path of the FK query; the
scanned rows are a parameter).  In-degree of a table is the number of
dependency entries it has; the queue starts with the zero-in-degree
tables sorted; tables left unordered by the loop are appended in their
original input order. -/
def getImportOrder (tables : List String) (rows : List (String × String)) : List String :=
  if tables.isEmpty then []
  else
    let deg0 : String → Int := fun t => ((depsOf tables rows t).length : Int)
    let queue0 := sortStrings (tables.filter (fun t => deg0 t == 0))
    let result := kahnLoop tables rows (2 * tables.length + 1) deg0 queue0 []
    if result.length < tables.length then
      result ++ tables.filter (fun t => !(result.contains t))
    else result

/-- The in-set dependency relation: `t` depends on `d` (there is a
scanned FK row (t, d) with both tables in the working set). -/
def DependsOn (tables : List String) (rows : List (String × String)) (t d : String) : Prop :=
  d ∈ depsOf tables rows t

/-- Go `strings.TrimSuffix`. -/
def trimSuffixStr (s suf : String) : String :=
  if isSuffixB suf.data s.data then String.mk (s.data.take (s.data.length - suf.data.length))
  else s

/-- ASCII whitespace (the seed files at issue are ASCII). -/
def isSpaceChar (c : Char) : Bool :=
  c == ' ' || c == '\t' || c == '\n' || c == '\r' || c.toNat == 11 || c.toNat == 12

/-- Go `strings.TrimSpace`. -/
def trimSpace (s : String) : String :=
  String.mk (((s.data.dropWhile isSpaceChar).reverse.dropWhile isSpaceChar).reverse)

/-- Lookup in the `sqlByTable` map (Go map built by insertion: on
duplicate keys the last write wins; a missing key yields the zero
value). -/
def lookupFile (m : List (String × String)) (k : String) : String :=
  match m.reverse.find? (fun p => p.1 == k) with
  | some p => p.2
  | none => ""

/-- Effect oracles for `loadSeedData`: the database is a statement log,
a transaction is a pending copy of it, `exec` models `tx.ExecContext`
(arbitrary effect or failure), `readFile` models `os.ReadFile`. -/
structure ReplayEnv where
  openOk : Bool
  beginOk : Bool
  exec : String → List String → Except String (List String)
  readFile : String → Except String String
  commitOk : Bool

/-- The truncate loop of `loadSeedData` (apply.go lines 88-94), run on
the reversed dependency order. -/
def runTruncates (env : ReplayEnv) : List String → List String → Except String (List String)
  | [], tx => .ok tx
  | t :: ts, tx =>
      match env.exec ("TRUNCATE TABLE " ++ t ++ " CASCADE") tx with
      | .error e => .error ("truncating table " ++ t ++ ": " ++ e)
      | .ok tx2 => runTruncates env ts tx2

/-- The insert loop of `loadSeedData` (apply.go lines 97-116): read each
table's file, skip empty or `-- No data` files, execute the rest. -/
def runInserts (env : ReplayEnv) (sqlByTable : List (String × String)) :
    List String → List String → Except String (List String)
  | [], tx => .ok tx
  | t :: ts, tx =>
      match env.readFile (lookupFile sqlByTable t) with
      | .error e => .error ("reading SQL file: " ++ e)
      | .ok content =>
          let c := trimSpace content
          if c == "" || startsWithStr c "-- No data" then runInserts env sqlByTable ts tx
          else
            match env.exec content tx with
            | .error e => .error ("executing SQL for table " ++ t ++ ": " ++ e)
            | .ok tx2 => runInserts env sqlByTable ts tx2

/-- The whole transaction body of `loadSeedData`: all truncates in
reverse dependency order, then all inserts in forward order. -/
def replayTx (env : ReplayEnv) (db0 : List String) (orderedTables : List String)
    (sqlByTable : List (String × String)) : Except String (List String) :=
  match runTruncates env orderedTables.reverse db0 with
  | .error e => .error e
  | .ok tx => runInserts env sqlByTable orderedTables tx

/-- `loadSeedData` from apply.go.  `sqlFiles` are the base names of the
globbed seed files, `csvPresent` the legacy-CSV check, `fkRes` the FK
query outcome (`none` = query or iteration error, degrading to input
order).  Returns the final committed database state and the outcome;
`defer tx.Rollback()` makes every error path return `db0` unchanged. -/
def loadSeedData (env : ReplayEnv) (db0 : List String) (sqlFiles : List String)
    (csvPresent : Bool) (fkRes : Option (List (String × String))) :
    List String × Except String Unit :=
  if !env.openOk then (db0, .error "opening database")
  else if csvPresent && sqlFiles.isEmpty then
    (db0, .error "found CSV files but no SQL files in seed directory")
  else if sqlFiles.isEmpty then (db0, .ok ())
  else
    let sqlByTable := sqlFiles.map (fun f => (trimSuffixStr f ".sql", f))
    let tables := sqlFiles.map (fun f => trimSuffixStr f ".sql")
    let orderedTables :=
      match fkRes with
      | none => tables
      | some rows => getImportOrder tables rows
    if !env.beginOk then (db0, .error "starting transaction")
    else
      match replayTx env db0 orderedTables sqlByTable with
      | .error e => (db0, .error e)
      | .ok tx => if env.commitOk then (tx, .ok ()) else (db0, .error "committing transaction")

/-- `tableInfo` from create.go. -/
structure TableInfo where
  Schema : String
  Name : String
deriving DecidableEq

/-- Outcome of reading the user's population query file (create.go lines
147-160): no path given, `os.IsNotExist` (warn and continue), another
read error (fatal), or the file content. -/
inductive QueryFileSrc where
  | noPath
  | notExist
  | readFailure (e : String)
  | content (s : String)

/-- Effect oracles for `extractSeedData` / `exportTableToSQL`. -/
structure CaptureEnv where
  beginOk : Bool
  exec : String → List String → Except String (List String)
  queryFile : QueryFileSrc
  colInfo : TableInfo → Except String (List ColumnInfo)
  tableRows : TableInfo → Except String (List (List GoValue))
  writeOk : Bool
  commitOk : Bool

/-- `exportTableToSQL` from create.go: introspect the staging table
(skipping the table with a warning when no columns are found), read all
rows, serialize them to one INSERT statement per row, and write exactly
one `<schema>.<table>.sql` file whose content is the statements, or a
`-- No data` marker when no row was captured.  The returned list is the
set of files written. -/
def exportTableToSQL (env : CaptureEnv) (t : TableInfo) (outputDir : String) :
    Except String (List (String × String)) :=
  match env.colInfo t with
  | .error e => .error ("getting column info: " ++ e)
  | .ok columns =>
      if columns.length = 0 then .ok []
      else
        match env.tableRows t with
        | .error e => .error ("querying temp table: " ++ e)
        | .ok rows =>
            let colNamesStr := joinSep ", " (columns.map (fun c => QuoteIdentifier c.Name))
            let inserts := rows.map (fun values =>
              "INSERT INTO " ++ QuoteIdentifier t.Schema ++ "." ++ QuoteIdentifier t.Name ++
              " (" ++ colNamesStr ++ ") VALUES (" ++ joinSep ", " (SerializeRow values columns) ++ ");")
            let outputPath := outputDir ++ "/" ++ t.Schema ++ "." ++ t.Name ++ ".sql"
            let content :=
              if inserts.length > 0 then joinSep "\n" inserts ++ "\n"
              else "-- No data for table " ++ t.Schema ++ "." ++ t.Name ++ "\n"
            if env.writeOk then .ok [(outputPath, content)] else .error "writing SQL file"

/-- The staging-table creation loop of `extractSeedData` (create.go
lines 133-144). -/
def runCreateTemps (env : CaptureEnv) : List TableInfo → List String → Except String (List String)
  | [], tx => .ok tx
  | t :: ts, tx =>
      let tempTable := "\"seed." ++ t.Schema ++ "." ++ t.Name ++ "\""
      let createSQL := "CREATE TEMP TABLE " ++ tempTable ++ " (LIKE " ++
        QuoteIdentifier t.Schema ++ "." ++ QuoteIdentifier t.Name ++ " INCLUDING ALL)"
      match env.exec createSQL tx with
      | .error e => .error ("creating temp table for " ++ t.Schema ++ "." ++ t.Name ++ ": " ++ e)
      | .ok tx2 => runCreateTemps env ts tx2

/-- The export loop of `extractSeedData` (create.go lines 163-167),
collecting the files written. -/
def runExports (env : CaptureEnv) (outputDir : String) :
    List TableInfo → Except String (List (String × String))
  | [] => .ok []
  | t :: ts =>
      match exportTableToSQL env t outputDir with
      | .error e => .error ("exporting table " ++ t.Schema ++ "." ++ t.Name ++ ": " ++ e)
      | .ok files =>
          match runExports env outputDir ts with
          | .error e => .error e
          | .ok rest => .ok (files ++ rest)

/-- The mutating part of the capture transaction: staging-table creation
followed by execution of the population script. -/
def captureTx (env : CaptureEnv) (tables : List TableInfo) (db0 : List String) :
    Except String (List String) :=
  match runCreateTemps env tables db0 with
  | .error e => .error e
  | .ok tx1 =>
      match env.queryFile with
      | .noPath => .ok tx1
      | .notExist => .ok tx1
      | .readFailure e => .error ("reading query file: " ++ e)
      | .content s =>
          match env.exec s tx1 with
          | .error e => .error ("executing seed query file: " ++ e)
          | .ok tx2 => .ok tx2

/-- `extractSeedData` from create.go.  `defer tx.Rollback()` restores
`db0` on every error path; on the success path the function calls
`tx.Commit()` (create.go line 170), after which the deferred rollback is
a no-op, so the transaction's effects become the new database state. -/
def extractSeedData (env : CaptureEnv) (tables : List TableInfo) (outputDir : String)
    (db0 : List String) : List String × Except String (List (String × String)) :=
  if !env.beginOk then (db0, .error "starting transaction")
  else
    match captureTx env tables db0 with
    | .error e => (db0, .error e)
    | .ok tx =>
        match runExports env outputDir tables with
        | .error e => (db0, .error e)
        | .ok files =>
            if env.commitOk then (tx, .ok files) else (db0, .error "committing transaction")

/-- One scanned row of the per-table column query in `dumpTables`. -/
structure CatTableCol where
  colName : String
  dataType : String
  charMaxLen : Option Int
  isNullable : Option String
  colDefault : Option String
  udtSchema : String
  udtName : String
  numPrecision : Option Int
  numScale : Option Int

/-- One table as seen by `dumpTables`, with its generated-column map. -/
structure CatTable where
  schema : String
  tableName : String
  generatedCols : List (String × String)
  cols : List CatTableCol

/-- One scanned constraint row (primary key, unique, check or FK). -/
structure CatConstraint where
  schema : String
  tableName : String
  conName : String
  conDef : String

/-- One scanned domain row plus its per-domain constraint sub-query. -/
structure CatDomain where
  schema : String
  domName : String
  baseType : String
  notNull : Bool
  defaultValue : Option String
  constraints : List String

/-- One scanned sequence row. -/
structure CatSequence where
  schema : String
  seqName : String
  startVal : Option Int
  incBy : Option Int
  maxVal : Option Int
  minVal : Option Int
  cacheSize : Option Int
  cycle : Option Bool

/-- The results of all per-phase catalog queries of `DumpSchema`, on any
database state in which every query succeeds. -/
structure Catalog where
  schemas : List String
  extensions : List (String × String)
  enums : List (String × String × List String)
  domains : List CatDomain
  composites : List (String × String × List (String × String))
  sequences : List CatSequence
  functionsEarly : List String
  tables : List CatTable
  functionsLate : List String
  views : List (String × String × String)
  pks : List CatConstraint
  uniques : List CatConstraint
  checks : List CatConstraint
  fks : List CatConstraint
  indexes : List (String × String × String × String)
  triggers : List (String × String × String × String)

/-- The exclusion test applied per object: both `schema.table` and the
bare table name are checked against the exclusion set. -/
def excluded (excl : List String) (schema name : String) : Bool :=
  excl.contains (schema ++ "." ++ name) || excl.contains name

/-- `dumpSchemas` rendering. -/
def schemaStmts (cat : Catalog) : List String :=
  cat.schemas.map (fun n => "CREATE SCHEMA " ++ QuoteIdentifier n ++ ";")

/-- `dumpExtensions` rendering. -/
def extensionStmts (cat : Catalog) : List String :=
  cat.extensions.map (fun p =>
    "CREATE EXTENSION IF NOT EXISTS " ++ QuoteIdentifier p.1 ++ " WITH SCHEMA " ++
      QuoteIdentifier p.2 ++ ";")

/-- `dumpEnums` rendering (labels arrive in catalog sort order). -/
def enumStmts (cat : Catalog) : List String :=
  cat.enums.map (fun e =>
    "CREATE TYPE " ++ QuoteIdentifier e.1 ++ "." ++ QuoteIdentifier e.2.1 ++ " AS ENUM (\n    " ++
      joinSep ",\n    " (e.2.2.map QuoteString) ++ "\n);")

/-- `dumpDomains` rendering of one domain. -/
def domainStmt (d : CatDomain) : String :=
  let base := "CREATE DOMAIN " ++ QuoteIdentifier d.schema ++ "." ++ QuoteIdentifier d.domName ++
    " AS " ++ d.baseType
  let s1 := if d.notNull then base ++ " NOT NULL" else base
  let s2 :=
    match d.defaultValue with
    | some v => if v != "" then s1 ++ " DEFAULT " ++ v else s1
    | none => s1
  (d.constraints.foldl (fun acc cd => acc ++ "\n    " ++ cd) s2) ++ ";"

/-- `dumpDomains` rendering. -/
def domainStmts (cat : Catalog) : List String := cat.domains.map domainStmt

/-- `dumpCompositeTypes` rendering (types with no attributes are not
emitted). -/
def compositeStmts (cat : Catalog) : List String :=
  (cat.composites.filter (fun c => !c.2.2.isEmpty)).map (fun c =>
    "CREATE TYPE " ++ QuoteIdentifier c.1 ++ "." ++ QuoteIdentifier c.2.1 ++ " AS (\n" ++
      joinSep ",\n" (c.2.2.map (fun a => "    " ++ QuoteIdentifier a.1 ++ " " ++ a.2)) ++ "\n);")

/-- `dumpSequences` rendering of one sequence. -/
def sequenceStmt (s : CatSequence) : String :=
  let sql := "CREATE SEQUENCE " ++ QuoteIdentifier s.schema ++ "." ++ QuoteIdentifier s.seqName
  let sql := match s.startVal with
    | some v => sql ++ " START WITH " ++ toString v
    | none => sql
  let sql := match s.incBy with
    | some v => sql ++ " INCREMENT BY " ++ toString v
    | none => sql
  let sql := match s.minVal with
    | some v => sql ++ " MINVALUE " ++ toString v
    | none => sql
  let sql := match s.maxVal with
    | some v => sql ++ " MAXVALUE " ++ toString v
    | none => sql
  let sql := match s.cacheSize with
    | some v => sql ++ " CACHE " ++ toString v
    | none => sql
  let sql := if s.cycle == some true then sql ++ " CYCLE" else sql
  sql ++ ";"

/-- `dumpSequences` rendering (its exclusion-set parameter is unused in
the source). -/
def sequenceStmts (cat : Catalog) : List String := cat.sequences.map sequenceStmt

/-- `dumpFunctionsEarly` rendering. -/
def functionEarlyStmts (cat : Catalog) : List String :=
  cat.functionsEarly.map (fun d => d ++ ";")

/-- `dumpFunctionsLate` rendering. -/
def functionLateStmts (cat : Catalog) : List String :=
  cat.functionsLate.map (fun d => d ++ ";")

/-- The column-type switch in `dumpTables`. -/
def colTypeStr (c : CatTableCol) : String :=
  if c.dataType == "character varying" then
    match c.charMaxLen with
    | some l => "varchar(" ++ toString l ++ ")"
    | none => "varchar"
  else if c.dataType == "character" then
    match c.charMaxLen with
    | some l => "char(" ++ toString l ++ ")"
    | none => "char"
  else if c.dataType == "numeric" then
    match c.numPrecision, c.numScale with
    | some p, some sc => "numeric(" ++ toString p ++ "," ++ toString sc ++ ")"
    | some p, none => "numeric(" ++ toString p ++ ")"
    | none, _ => "numeric"
  else if c.dataType == "ARRAY" then c.udtName
  else if c.dataType == "USER-DEFINED" then
    if c.udtSchema != "public" then c.udtSchema ++ "." ++ c.udtName else c.udtName
  else c.dataType

/-- Generated-column lookup (Go map: last write wins). -/
def lookupGen (gens : List (String × String)) (n : String) : Option String :=
  match gens.reverse.find? (fun p => p.1 == n) with
  | some p => some p.2
  | none => none

/-- One column definition in `dumpTables` (generated columns render the
generation expression and may carry `NOT NULL` but never `DEFAULT`). -/
def colDefStr (gens : List (String × String)) (c : CatTableCol) : String :=
  let base := QuoteIdentifier c.colName ++ " " ++ colTypeStr c
  match lookupGen gens c.colName with
  | some genExpr =>
      let s := base ++ " GENERATED ALWAYS AS (" ++ genExpr ++ ") STORED"
      if c.isNullable == some "NO" then s ++ " NOT NULL" else s
  | none =>
      let s := if c.isNullable == some "NO" then base ++ " NOT NULL" else base
      match c.colDefault with
      | some d => if d != "" then s ++ " DEFAULT " ++ d else s
      | none => s

/-- `dumpTables` rendering: skip excluded tables, emit only tables with
at least one column. -/
def tableStmts (excl : List String) (cat : Catalog) : List String :=
  ((cat.tables.filter (fun t => !(excluded excl t.schema t.tableName))).filter
      (fun t => !t.cols.isEmpty)).map (fun t =>
    "CREATE TABLE " ++ QuoteIdentifier t.schema ++ "." ++ QuoteIdentifier t.tableName ++
      " (\n    " ++ joinSep ",\n    " (t.cols.map (colDefStr t.generatedCols)) ++ "\n);")

/-- `dumpViews` rendering. -/
def viewStmts (excl : List String) (cat : Catalog) : List String :=
  (cat.views.filter (fun v => !(excluded excl v.1 v.2.1))).map (fun v =>
    "CREATE VIEW " ++ QuoteIdentifier v.1 ++ "." ++ QuoteIdentifier v.2.1 ++ " AS\n" ++
      (trimSuffixStr v.2.2 ";") ++ ";")

/-- Shared rendering of `dumpPrimaryKeys` / `dumpUniqueConstraints` /
`dumpCheckConstraints` / `dumpForeignKeys`. -/
def constraintStmts (excl : List String) (l : List CatConstraint) : List String :=
  (l.filter (fun c => !(excluded excl c.schema c.tableName))).map (fun c =>
    "ALTER TABLE " ++ QuoteIdentifier c.schema ++ "." ++ QuoteIdentifier c.tableName ++
      " ADD CONSTRAINT " ++ QuoteIdentifier c.conName ++ " " ++ c.conDef ++ ";")

/-- `dumpPrimaryKeys` rendering. -/
def pkStmts (excl : List String) (cat : Catalog) : List String := constraintStmts excl cat.pks

/-- `dumpUniqueConstraints` rendering. -/
def uniqueStmts (excl : List String) (cat : Catalog) : List String :=
  constraintStmts excl cat.uniques

/-- `dumpCheckConstraints` rendering. -/
def checkStmts (excl : List String) (cat : Catalog) : List String :=
  constraintStmts excl cat.checks

/-- `dumpForeignKeys` rendering. -/
def fkStmts (excl : List String) (cat : Catalog) : List String := constraintStmts excl cat.fks

/-- `dumpIndexes` rendering. -/
def indexStmts (excl : List String) (cat : Catalog) : List String :=
  (cat.indexes.filter (fun i => !(excluded excl i.1 i.2.1))).map (fun i => i.2.2.2 ++ ";")

/-- `dumpTriggers` rendering. -/
def triggerStmts (excl : List String) (cat : Catalog) : List String :=
  (cat.triggers.filter (fun tg => !(excluded excl tg.1 tg.2.1))).map (fun tg => tg.2.2.2 ++ ";")

/-- One section of `DumpSchema`'s `parts`: header, statements, blank
separator, appended only when the section is nonempty. -/
def appendSection (parts : List String) (header : String) (stmts : List String) : List String :=
  if stmts.length > 0 then parts ++ header :: stmts ++ [""] else parts

/-- The `parts` list assembled by `DumpSchema`, phase by phase in source
order. -/
def DumpSchemaParts (excl : List String) (cat : Catalog) : List String :=
  let parts := appendSection [] "-- Schemas" (schemaStmts cat)
  let parts := appendSection parts "-- Extensions" (extensionStmts cat)
  let parts := appendSection parts "-- Enum types" (enumStmts cat)
  let parts := appendSection parts "-- Domain types" (domainStmts cat)
  let parts := appendSection parts "-- Composite types" (compositeStmts cat)
  let parts := appendSection parts "-- Sequences" (sequenceStmts cat)
  let parts := appendSection parts "-- Functions (PL/pgSQL)" (functionEarlyStmts cat)
  let parts := appendSection parts "-- Tables" (tableStmts excl cat)
  let parts := appendSection parts "-- Functions (SQL)" (functionLateStmts cat)
  let parts := appendSection parts "-- Views" (viewStmts excl cat)
  let parts := appendSection parts "-- Primary keys" (pkStmts excl cat)
  let parts := appendSection parts "-- Unique constraints" (uniqueStmts excl cat)
  let parts := appendSection parts "-- Check constraints" (checkStmts excl cat)
  let parts := appendSection parts "-- Foreign keys" (fkStmts excl cat)
  let parts := appendSection parts "-- Indexes" (indexStmts excl cat)
  let parts := appendSection parts "-- Triggers" (triggerStmts excl cat)
  parts

/-- `DumpSchema` (success path): the joined DDL text. -/
def DumpSchema (excl : List String) (cat : Catalog) : String :=
  joinSep "\n" (DumpSchemaParts excl cat)

/-- The text-like dispatch condition of `SerializeValue` (serialize.go
lines 212-222), on the lowercased type name. -/
def textLikeB (nt : String) : Bool :=
  nt == "text" || nt == "character varying" || startsWithStr nt "character varying(" ||
  nt == "varchar" || startsWithStr nt "varchar(" ||
  nt == "character" || startsWithStr nt "character(" ||
  nt == "char" || startsWithStr nt "char(" ||
  nt == "name" || nt == "citext"

/-- The exact type names dispatched before the text-like branch of
`serializeNonBytes`. -/
def namesBeforeText : List String :=
  ["boolean", "bool", "integer", "int", "bigint", "smallint", "serial", "bigserial",
   "real", "double precision", "numeric", "decimal",
   "timestamp without time zone", "timestamp", "timestamp with time zone", "timestamptz",
   "date", "time without time zone", "time", "time with time zone", "timetz",
   "interval", "uuid", "json", "jsonb",
   "numrange", "int4range", "int8range", "tsrange", "tstzrange", "daterange"]

/-- The parameterized-type prefixes dispatched before the text-like
branch. -/
def prefixesBeforeText : List String := ["numeric(", "timestamp(", "time("]

/-- Decidable side conditions stating that the parameterized-type family
with prefix `p` is disjoint from every dispatch branch of
`serializeNonBytes` that precedes the text-like branch: no earlier exact
type name starts with `p`, and `p` is prefix-incompatible with the
earlier parameterized families. -/
def swFamilyDisjoint (p : String) : Bool :=
  namesBeforeText.all (fun x => !(startsWithStr x p)) &&
  prefixesBeforeText.all (fun q => !(isPrefixB p.data q.data) && !(isPrefixB q.data p.data))

/-- The loop invariant of the Kahn worklist loop, relating the counter
map `deg`, the ready queue `q` and the emitted list `E`:
no table occurs twice across `E ++ q`; everything tracked is in the
working set; every in-set counter equals the number of its dependency
entries not yet emitted; queued tables have counter zero; unemitted,
unqueued tables have nonzero counters; every emitted table's
dependencies were emitted strictly before it; emitted tables have
nonpositive counters. -/
def KahnInv (tables : List String) (rows : List (String × String))
    (deg : String → Int) (q E : List String) : Prop :=
  (E ++ q).Nodup ∧
  (∀ t, t ∈ E ++ q → t ∈ tables) ∧
  (∀ t ∈ tables, deg t = (((depsOf tables rows t).filter (fun d => !(E.contains d))).length : Int)) ∧
  (∀ t ∈ q, deg t = 0) ∧
  (∀ t ∈ tables, t ∉ E → t ∉ q → deg t ≠ 0) ∧
  (∀ t ∈ E, ∀ d ∈ depsOf tables rows t, d ∈ E ∧ E.indexOf d < E.indexOf t) ∧
  (∀ t ∈ E, deg t ≤ 0)

/-- The contribution of one section to `DumpSchema`'s `parts` list:
header, statements and blank separator for a nonempty section, nothing
for an empty one. -/
def sectionTail (header : String) (stmts : List String) : List String :=
  if stmts.length > 0 then header :: stmts ++ [""] else []

/-- Spec-side characterization of the conservative fallback reached by a
value serialized under the empty declared type name: `NULL` for nil,
otherwise the quoted raw textual form. -/
def quotedRawFallback : GoValue → String
  | .vnull => "NULL"
  | .vbytes b => QuoteString b
  | v => QuoteString (goFmt v)

/-- If `nt` starts with `p` but `x` does not, then `nt ≠ x`. -/
theorem beq_false_of_sw (nt x p : String) (h : startsWithStr nt p = true)
    (hx : startsWithStr x p = false) : (nt == x) = false := by
  cases he : nt == x with
  | false => rfl
  | true =>
      have hnx : nt = x := by simpa using he
      subst hnx
      rw [h] at hx
      cases hx

/-- Two prefixes of the same list are comparable. -/
theorem isPrefixB_comparable :
    ∀ (s p q : List Char), isPrefixB p s = true → isPrefixB q s = true →
      isPrefixB p q = true ∨ isPrefixB q p = true := by
  intro s
  induction s with
  | nil =>
      intro p q hp _
      cases p with
      | nil => left; rfl
      | cons a as => simp [isPrefixB] at hp
  | cons b bs ih =>
      intro p q hp hq
      cases p with
      | nil => left; rfl
      | cons a as =>
          cases q with
          | nil => right; rfl
          | cons c cs =>
              simp only [isPrefixB, Bool.and_eq_true, beq_iff_eq] at hp hq
              rcases hp with ⟨hab, hp2⟩
              rcases hq with ⟨hcb, hq2⟩
              rcases ih as cs hp2 hq2 with h | h
              · left; simp [isPrefixB, hab, hcb, h]
              · right; simp [isPrefixB, hab, hcb, h]

/-- If `nt` starts with `p`, and `p`, `q` are prefix-incompatible, then
`nt` does not start with `q`. -/
theorem sw_false_of_sw (nt p q : String) (h : startsWithStr nt p = true)
    (h1 : isPrefixB p.data q.data = false) (h2 : isPrefixB q.data p.data = false) :
    startsWithStr nt q = false := by
  cases hq : startsWithStr nt q with
  | false => rfl
  | true =>
      rcases isPrefixB_comparable nt.data p.data q.data h hq with hc | hc
      · rw [hc] at h1; cases h1
      · rw [hc] at h2; cases h2

/-- C4 (code bug evaluation): a `time.Time` under the parameterized type
`timestamp(3) with time zone` is serialized by the
`timestamp without time zone` branch — the literal carries no UTC-offset
suffix — while the unparameterized `timestamp with time zone` form of
the same value does carry one.  The with-time-zone disjunct for
parameterized names (serialize.go line 159) is unreachable because the
earlier branch (line 151) already matches every `timestamp(`-prefixed
name. -/
theorem C4_param_timestamptz_no_offset :
    SerializeValue (.vtime ⟨2024, 3, 1, 10, 30, 0, 0, -300⟩) "timestamp(3) with time zone"
        = squoteS ++ "2024-03-01 10:30:00" ++ squoteS
      ∧ SerializeValue (.vtime ⟨2024, 3, 1, 10, 30, 0, 0, -300⟩) "timestamp with time zone"
        = squoteS ++ "2024-03-01 10:30:00-05:00" ++ squoteS := by
  constructor
  · decide
  · decide

/-- For a string value whose lowercased declared type belongs to a
parameterized text-like family disjoint from all earlier dispatch
branches and is not an array type, `serializeNonBytes` quotes the
string. -/
theorem serializeNonBytes_textfam (s nt p : String) (hdisj : swFamilyDisjoint p = true)
    (hp : startsWithStr nt p = true) (harr : endsWithStr nt "[]" = false) :
    serializeNonBytes (.vstr s) nt = QuoteString s := by
  rw [swFamilyDisjoint, Bool.and_eq_true, List.all_eq_true, List.all_eq_true] at hdisj
  obtain ⟨hnames, hprefs⟩ := hdisj
  have hname : ∀ x, x ∈ namesBeforeText → startsWithStr x p = false := by
    intro x hx
    have := hnames x hx
    simpa using this
  have hpref : ∀ q, q ∈ prefixesBeforeText →
      isPrefixB p.data q.data = false ∧ isPrefixB q.data p.data = false := by
    intro q hq
    have := hprefs q hq
    simp only [Bool.and_eq_true, Bool.not_eq_true'] at this
    exact this
  have b1 := beq_false_of_sw nt "boolean" p hp (hname "boolean" (by decide))
  have b2 := beq_false_of_sw nt "bool" p hp (hname "bool" (by decide))
  have b3 := beq_false_of_sw nt "integer" p hp (hname "integer" (by decide))
  have b4 := beq_false_of_sw nt "int" p hp (hname "int" (by decide))
  have b5 := beq_false_of_sw nt "bigint" p hp (hname "bigint" (by decide))
  have b6 := beq_false_of_sw nt "smallint" p hp (hname "smallint" (by decide))
  have b7 := beq_false_of_sw nt "serial" p hp (hname "serial" (by decide))
  have b8 := beq_false_of_sw nt "bigserial" p hp (hname "bigserial" (by decide))
  have b9 := beq_false_of_sw nt "real" p hp (hname "real" (by decide))
  have b10 := beq_false_of_sw nt "double precision" p hp (hname "double precision" (by decide))
  have b11 := beq_false_of_sw nt "numeric" p hp (hname "numeric" (by decide))
  have b12 := beq_false_of_sw nt "decimal" p hp (hname "decimal" (by decide))
  have b13 := beq_false_of_sw nt "timestamp without time zone" p hp
    (hname "timestamp without time zone" (by decide))
  have b14 := beq_false_of_sw nt "timestamp" p hp (hname "timestamp" (by decide))
  have b15 := beq_false_of_sw nt "timestamp with time zone" p hp
    (hname "timestamp with time zone" (by decide))
  have b16 := beq_false_of_sw nt "timestamptz" p hp (hname "timestamptz" (by decide))
  have b17 := beq_false_of_sw nt "date" p hp (hname "date" (by decide))
  have b18 := beq_false_of_sw nt "time without time zone" p hp
    (hname "time without time zone" (by decide))
  have b19 := beq_false_of_sw nt "time" p hp (hname "time" (by decide))
  have b20 := beq_false_of_sw nt "time with time zone" p hp
    (hname "time with time zone" (by decide))
  have b21 := beq_false_of_sw nt "timetz" p hp (hname "timetz" (by decide))
  have b22 := beq_false_of_sw nt "interval" p hp (hname "interval" (by decide))
  have b23 := beq_false_of_sw nt "uuid" p hp (hname "uuid" (by decide))
  have b24 := beq_false_of_sw nt "json" p hp (hname "json" (by decide))
  have b25 := beq_false_of_sw nt "jsonb" p hp (hname "jsonb" (by decide))
  have b26 := beq_false_of_sw nt "numrange" p hp (hname "numrange" (by decide))
  have b27 := beq_false_of_sw nt "int4range" p hp (hname "int4range" (by decide))
  have b28 := beq_false_of_sw nt "int8range" p hp (hname "int8range" (by decide))
  have b29 := beq_false_of_sw nt "tsrange" p hp (hname "tsrange" (by decide))
  have b30 := beq_false_of_sw nt "tstzrange" p hp (hname "tstzrange" (by decide))
  have b31 := beq_false_of_sw nt "daterange" p hp (hname "daterange" (by decide))
  have s1 := sw_false_of_sw nt p "numeric(" hp (hpref "numeric(" (by decide)).1
    (hpref "numeric(" (by decide)).2
  have s2 := sw_false_of_sw nt p "timestamp(" hp (hpref "timestamp(" (by decide)).1
    (hpref "timestamp(" (by decide)).2
  have s3 := sw_false_of_sw nt p "time(" hp (hpref "time(" (by decide)).1
    (hpref "time(" (by decide)).2
  simp only [serializeNonBytes, b1, b2, b3, b4, b5, b6, b7, b8, b9, b10, b11, b12, b13,
    b14, b15, b16, b17, b18, b19, b20, b21, b22, b23, b24, b25, b26, b27, b28, b29, b30,
    b31, s1, s2, s3, harr, Bool.or_false, Bool.false_or, Bool.false_and, Bool.or_self,
    Bool.false_eq_true, if_false, ite_self]
  rfl

/-- For a string value whose lowercased declared type satisfies the
text-like dispatch condition and is not an array type, the dispatch
quotes the string. -/
theorem serializeNonBytes_textlike (s nt : String) (hlike : textLikeB nt = true)
    (harr : endsWithStr nt "[]" = false) :
    serializeNonBytes (.vstr s) nt = QuoteString s := by
  simp only [textLikeB, Bool.or_eq_true, beq_iff_eq] at hlike
  rcases hlike with ((((((((((h|h)|h)|h)|h)|h)|h)|h)|h)|h)|h)
  · subst h; rfl
  · subst h; rfl
  · exact serializeNonBytes_textfam s nt "character varying(" (by decide) h harr
  · subst h; rfl
  · exact serializeNonBytes_textfam s nt "varchar(" (by decide) h harr
  · subst h; rfl
  · exact serializeNonBytes_textfam s nt "character(" (by decide) h harr
  · subst h; rfl
  · exact serializeNonBytes_textfam s nt "char(" (by decide) h harr
  · subst h; rfl
  · subst h; rfl

/-- C7: for every string value under a text-like declared type (one of
the scalar text types or their parameterized forms, not an array type),
`SerializeValue` quotes the value with every embedded single quote
doubled and prefixes the literal with `E` exactly when the value
contains a backslash. -/
theorem C7_textlike_quoting (s pgType : String)
    (hlike : textLikeB (toLowerStr pgType) = true)
    (harr : endsWithStr (toLowerStr pgType) "[]" = false) :
    SerializeValue (.vstr s) pgType =
      (if s.data.contains '\\' then "E" else "") ++ squoteS ++
        String.mk (escapeQuotesList s.data) ++ squoteS := by
  have hsv : SerializeValue (.vstr s) pgType = serializeNonBytes (.vstr s) (toLowerStr pgType) := rfl
  rw [hsv, serializeNonBytes_textlike s (toLowerStr pgType) hlike harr]
  unfold QuoteString
  by_cases hb : s.data.contains '\\'
  · simp only [hb, if_pos]
  · simp only [hb, Bool.false_eq_true, if_false, String.empty_append]

/-- A prefix is no longer than the list it prefixes. -/
theorem isPrefixB_length : ∀ (p s : List Char), isPrefixB p s = true → p.length ≤ s.length := by
  intro p
  induction p with
  | nil => intro s _; simp
  | cons a as ih =>
      intro s hp
      cases s with
      | nil => simp [isPrefixB] at hp
      | cons b bs =>
          simp only [isPrefixB, Bool.and_eq_true] at hp
          simpa using ih bs hp.2

/-- A contiguous occurrence is no longer than the list it occurs in. -/
theorem containsSub_length : ∀ (s pat : List Char), containsSub s pat = true → pat.length ≤ s.length := by
  intro s
  induction s with
  | nil =>
      intro pat h
      cases pat with
      | nil => simp
      | cons a as => simp [containsSub, isPrefixB] at h
  | cons b bs ih =>
      intro pat h
      simp only [containsSub, Bool.or_eq_true] at h
      rcases h with h | h
      · exact isPrefixB_length pat (b :: bs) h
      · simpa using Nat.le_succ_of_le (ih pat h)

/-- Full specification of the tag-search loop: starting from the tag
`q^t` with all shorter family tags known to collide, it returns the
shortest colliding-free family tag. -/
theorem findTagAux_spec : ∀ (fuel : Nat) (s : List Char) (t : Nat),
    1 ≤ t → s.length + 1 - t ≤ fuel →
    (∀ m, 1 ≤ m → m < t → containsSub s (dollarWrap (List.replicate m 'q')) = true) →
    ∃ n, t ≤ n ∧ findTagAux fuel s (List.replicate t 'q') = List.replicate n 'q' ∧
      containsSub s (dollarWrap (List.replicate n 'q')) = false ∧
      (∀ m, 1 ≤ m → m < n → containsSub s (dollarWrap (List.replicate m 'q')) = true) := by
  intro fuel
  induction fuel with
  | zero =>
      intro s t ht hfuel hmin
      refine ⟨t, le_refl t, rfl, ?_, hmin⟩
      cases hc : containsSub s (dollarWrap (List.replicate t 'q')) with
      | false => rfl
      | true =>
          have hlen := containsSub_length s _ hc
          simp only [dollarWrap, List.length_cons, List.length_append, List.length_replicate,
            List.length_singleton] at hlen
          omega
  | succ fuel ih =>
      intro s t ht hfuel hmin
      rw [findTagAux]
      cases hc : containsSub s (dollarWrap (List.replicate t 'q')) with
      | false => exact ⟨t, le_refl t, rfl, hc, hmin⟩
      | true =>
          have hlen := containsSub_length s _ hc
          simp only [dollarWrap, List.length_cons, List.length_append, List.length_replicate,
            List.length_singleton] at hlen
          have hrep : List.replicate t 'q' ++ ['q'] = List.replicate (t + 1) 'q' :=
            (List.replicate_succ' t 'q').symm
          rw [hrep]
          have hmin' : ∀ m, 1 ≤ m → m < t + 1 →
              containsSub s (dollarWrap (List.replicate m 'q')) = true := by
            intro m hm1 hm2
            rcases Nat.lt_or_ge m t with hlt | hge
            · exact hmin m hm1 hlt
            · have : m = t := by omega
              subst this
              exact hc
          obtain ⟨n, hn1, hn2, hn3, hn4⟩ := ih s (t + 1) (by omega) (by omega) hmin'
          exact ⟨n, by omega, hn2, hn3, hn4⟩

/-- C8: the dollar-quoting tag is the shortest member of the family
`q`, `qq`, `qqq`, … whose wrapped form `$tag$` does not occur in the
payload, and the produced literal is `$tag$payload$tag$`. -/
theorem C8_dollar_tag (s : String) :
    (∃ n, 1 ≤ n ∧ (chosenTag s).data = List.replicate n 'q' ∧
      containsSub s.data (dollarWrap (List.replicate n 'q')) = false ∧
      (∀ m, 1 ≤ m → m < n → containsSub s.data (dollarWrap (List.replicate m 'q')) = true)) ∧
    quoteDollar s = "$" ++ chosenTag s ++ "$" ++ s ++ "$" ++ chosenTag s ++ "$" := by
  constructor
  · obtain ⟨n, hn1, hn2, hn3, hn4⟩ := findTagAux_spec (s.data.length + 1) s.data 1
      (le_refl 1) (by omega) (fun m hm1 hm2 => absurd hm2 (by omega))
    refine ⟨n, hn1, ?_, hn3, hn4⟩
    show (String.mk (findTagAux (s.data.length + 1) s.data ['q'])).data = _
    rw [show (['q'] : List Char) = List.replicate 1 'q' from rfl, hn2]
  · rfl

/-- `SerializeRow` returns one literal per value. -/
theorem SerializeRow_length : ∀ (vs : List GoValue) (cs : List ColumnInfo),
    (SerializeRow vs cs).length = vs.length := by
  intro vs
  induction vs with
  | nil => intro cs; cases cs <;> rfl
  | cons v vs ih =>
      intro cs
      cases cs with
      | nil => simpa [SerializeRow] using ih []
      | cons c cs => simpa [SerializeRow] using ih cs

/-- Values beyond the column list are serialized under the empty type
name. -/
theorem SerializeRow_overflow : ∀ (vs : List GoValue) (cs : List ColumnInfo) (i : Nat),
    cs.length ≤ i →
    (SerializeRow vs cs)[i]? = (vs[i]?).map (fun v => SerializeValue v "") := by
  intro vs
  induction vs with
  | nil => intro cs i _; cases cs <;> simp [SerializeRow]
  | cons v vs ih =>
      intro cs i hi
      cases cs with
      | nil =>
          cases i with
          | zero => simp [SerializeRow]
          | succ j => simpa [SerializeRow] using ih [] j (by simp)
      | cons c cs =>
          cases i with
          | zero => simp at hi
          | succ j =>
              simp only [List.length_cons] at hi
              simpa [SerializeRow] using ih cs j (by omega)

/-- C10: `SerializeRow` is total and length-preserving — one literal per
value regardless of the relative lengths of the two lists — and a value
at an index with no corresponding column is serialized under the empty
declared type name, which lands in the conservative quoted-raw
fallback. -/
theorem C10_serializeRow_total (values : List GoValue) (columns : List ColumnInfo) :
    (SerializeRow values columns).length = values.length ∧
    (∀ i, columns.length ≤ i →
      (SerializeRow values columns)[i]? = (values[i]?).map (fun v => SerializeValue v "")) ∧
    (∀ v : GoValue, SerializeValue v "" = quotedRawFallback v) := by
  refine ⟨SerializeRow_length values columns, ?_, ?_⟩
  · intro i hi
    exact SerializeRow_overflow values columns i hi
  · intro v
    cases v <;> rfl

/-- Witness for C10: a two-value row with a single column; the second
value is serialized under the empty type name. -/
theorem C10_witness :
    ([(⟨"a", "integer"⟩ : ColumnInfo)].length ≤ 1) ∧
    (SerializeRow [.vstr "x", .vint 5] [⟨"a", "integer"⟩])[1]? =
      ((([.vstr "x", .vint 5] : List GoValue))[1]?).map (fun v => SerializeValue v "") :=
  ⟨by decide, (C10_serializeRow_total [.vstr "x", .vint 5] [⟨"a", "integer"⟩]).2.1 1 (by decide)⟩

/-- Witness for C7 at the spec's Scenario B input. -/
theorem C7_witness :
    textLikeB (toLowerStr "text") = true ∧ endsWithStr (toLowerStr "text") "[]" = false ∧
    SerializeValue (.vstr ("O" ++ squoteS ++ "Brien\\Co")) "text" =
      "E" ++ squoteS ++ "O" ++ squoteS ++ squoteS ++ "Brien\\Co" ++ squoteS := by
  refine ⟨by decide, by decide, ?_⟩
  rw [C7_textlike_quoting ("O" ++ squoteS ++ "Brien\\Co") "text" (by decide) (by decide)]
  decide

/-- C6: for every table whose staging introspection succeeds with at
least one column and whose row query and file write succeed,
`exportTableToSQL` writes exactly one artifact file named
`<schema>.<table>.sql`; with rows it contains the INSERT statements,
with zero rows it contains an explicit `-- No data` marker — never a
missing file. -/
theorem C6_export_one_artifact (env : CaptureEnv) (t : TableInfo) (outputDir : String)
    (columns : List ColumnInfo) (rows : List (List GoValue))
    (hcol : env.colInfo t = .ok columns) (hne : columns.length ≠ 0)
    (hrows : env.tableRows t = .ok rows) (hw : env.writeOk = true) :
    exportTableToSQL env t outputDir = .ok
      [(outputDir ++ "/" ++ t.Schema ++ "." ++ t.Name ++ ".sql",
        if rows.isEmpty then "-- No data for table " ++ t.Schema ++ "." ++ t.Name ++ "\n"
        else joinSep "\n" (rows.map (fun values =>
          "INSERT INTO " ++ QuoteIdentifier t.Schema ++ "." ++ QuoteIdentifier t.Name ++
          " (" ++ joinSep ", " (columns.map (fun c => QuoteIdentifier c.Name)) ++ ") VALUES (" ++
          joinSep ", " (SerializeRow values columns) ++ ");")) ++ "\n")] := by
  cases rows with
  | nil => simp [exportTableToSQL, hcol, hrows, hne, hw]
  | cons r rs => simp [exportTableToSQL, hcol, hrows, hne, hw]

/-- Witness for C6: a one-column table captured with zero rows still
produces its artifact file, containing the no-data marker. -/
theorem C6_witness :
    ((⟨true, fun _ tx => .ok tx, .noPath, fun _ => .ok [⟨"id", "integer"⟩],
        fun _ => .ok [], true, true⟩ : CaptureEnv).colInfo ⟨"public", "users"⟩
      = .ok [⟨"id", "integer"⟩]) ∧
    ([(⟨"id", "integer"⟩ : ColumnInfo)].length ≠ 0) ∧
    exportTableToSQL
      (⟨true, fun _ tx => .ok tx, .noPath, fun _ => .ok [⟨"id", "integer"⟩],
        fun _ => .ok [], true, true⟩ : CaptureEnv) ⟨"public", "users"⟩ "out"
      = .ok [("out/public.users.sql", "-- No data for table public.users\n")] := by
  refine ⟨rfl, by decide, ?_⟩
  rw [C6_export_one_artifact
    (⟨true, fun _ tx => .ok tx, .noPath, fun _ => .ok [⟨"id", "integer"⟩],
      fun _ => .ok [], true, true⟩ : CaptureEnv) ⟨"public", "users"⟩ "out"
    [⟨"id", "integer"⟩] [] rfl (by decide) rfl rfl]
  rfl

/-- C1 counterexample: a successful capture run in which every statement
succeeds ends with `tx.Commit()` (create.go line 170), so the capture
transaction's effects persist — here the staging-table creation
statement remains in the database log, refuting "the transaction is
rolled back on the success path". -/
theorem C1_counterexample :
    ¬ ((extractSeedData
        (⟨true, fun st tx => .ok (tx ++ [st]), .noPath,
          fun _ => .ok [⟨"id", "integer"⟩], fun _ => .ok [], true, true⟩ : CaptureEnv)
        [⟨"public", "users"⟩] "out" []).1 = ([] : List String)) := by
  decide

/-- C1 (amended): the capture transaction is rolled back on every error
path, so a failed capture leaves the source database unchanged; on the
success path the transaction is committed, and the final state is the
result of the capture transaction body. -/
theorem C1_capture_rollback_on_error (env : CaptureEnv) (tables : List TableInfo)
    (outputDir : String) (db0 : List String) :
    (∀ e, (extractSeedData env tables outputDir db0).2 = .error e →
      (extractSeedData env tables outputDir db0).1 = db0) ∧
    ((extractSeedData env tables outputDir db0).1 ≠ db0 →
      env.commitOk = true ∧
      captureTx env tables db0 = .ok (extractSeedData env tables outputDir db0).1) := by
  cases hb : env.beginOk with
  | false => simp [extractSeedData, hb]
  | true =>
      cases hct : captureTx env tables db0 with
      | error e => simp [extractSeedData, hb, hct]
      | ok tx =>
          cases hre : runExports env outputDir tables with
          | error e => simp [extractSeedData, hb, hct, hre]
          | ok files =>
              cases hc : env.commitOk with
              | false => simp [extractSeedData, hb, hct, hre, hc]
              | true =>
                  constructor
                  · intro e he
                    simp [extractSeedData, hb, hct, hre, hc] at he
                  · intro _
                    refine ⟨rfl, ?_⟩
                    simp [extractSeedData, hb, hct, hre, hc]

/-- Witness for C1: a capture whose first staging statement fails rolls
back and leaves the database log unchanged. -/
theorem C1_witness :
    ((extractSeedData
        (⟨true, fun _ _ => .error "boom", .noPath, fun _ => .ok [⟨"id", "integer"⟩],
          fun _ => .ok [], true, true⟩ : CaptureEnv)
        [⟨"public", "users"⟩] "out" ["x"]).2
      = .error "creating temp table for public.users: boom") ∧
    (extractSeedData
        (⟨true, fun _ _ => .error "boom", .noPath, fun _ => .ok [⟨"id", "integer"⟩],
          fun _ => .ok [], true, true⟩ : CaptureEnv)
        [⟨"public", "users"⟩] "out" ["x"]).1 = ["x"] := by
  refine ⟨rfl, ?_⟩
  exact (C1_capture_rollback_on_error
    (⟨true, fun _ _ => .error "boom", .noPath, fun _ => .ok [⟨"id", "integer"⟩],
      fun _ => .ok [], true, true⟩ : CaptureEnv)
    [⟨"public", "users"⟩] "out" ["x"]).1
    "creating temp table for public.users: boom" rfl

/-- C3: `loadSeedData` is atomic — on every error outcome the target
database is left in its pre-replay state, and the state changes only
when the whole transaction body (all truncates in reverse dependency
order followed by all per-table inserts) succeeded and the single final
commit was performed. -/
theorem C3_replay_atomic (env : ReplayEnv) (db0 : List String) (sqlFiles : List String)
    (csvPresent : Bool) (fkRes : Option (List (String × String))) :
    (∀ e, (loadSeedData env db0 sqlFiles csvPresent fkRes).2 = .error e →
      (loadSeedData env db0 sqlFiles csvPresent fkRes).1 = db0) ∧
    ((loadSeedData env db0 sqlFiles csvPresent fkRes).1 ≠ db0 →
      env.commitOk = true ∧
      replayTx env db0
        (match fkRes with
         | none => sqlFiles.map (fun f => trimSuffixStr f ".sql")
         | some rows => getImportOrder (sqlFiles.map (fun f => trimSuffixStr f ".sql")) rows)
        (sqlFiles.map (fun f => (trimSuffixStr f ".sql", f)))
        = .ok (loadSeedData env db0 sqlFiles csvPresent fkRes).1) := by
  cases ho : env.openOk with
  | false => simp [loadSeedData, ho]
  | true =>
      by_cases hcsv : (csvPresent && sqlFiles.isEmpty) = true
      · simp [loadSeedData, ho, hcsv]
      · by_cases hemp : sqlFiles.isEmpty = true
        · by_cases hcp : csvPresent = true
          · exact absurd (by simp [hcp, hemp]) hcsv
          · simp [loadSeedData, ho, hcsv, hemp, hcp]
        · cases hbg : env.beginOk with
          | false => simp [loadSeedData, ho, hcsv, hemp, hbg]
          | true =>
              cases htx : replayTx env db0
                  (match fkRes with
                   | none => sqlFiles.map (fun f => trimSuffixStr f ".sql")
                   | some rows =>
                      getImportOrder (sqlFiles.map (fun f => trimSuffixStr f ".sql")) rows)
                  (sqlFiles.map (fun f => (trimSuffixStr f ".sql", f))) with
              | error e => simp [loadSeedData, ho, hcsv, hemp, hbg, htx]
              | ok tx =>
                  cases hc : env.commitOk with
                  | false => simp [loadSeedData, ho, hcsv, hemp, hbg, htx, hc]
                  | true =>
                      constructor
                      · intro e he
                        simp [loadSeedData, ho, hcsv, hemp, hbg, htx, hc] at he
                      · intro _
                        refine ⟨rfl, ?_⟩
                        simp [loadSeedData, ho, hcsv, hemp, hbg, htx, hc]

/-- Witness for C3: a replay whose first truncate fails rolls back and
leaves the database log unchanged. -/
theorem C3_witness :
    ((loadSeedData
        (⟨true, true, fun _ _ => .error "boom", fun _ => .ok "INSERT 1", true⟩ : ReplayEnv)
        ["x"] ["users.sql"] false none).2
      = .error "truncating table users: boom") ∧
    (loadSeedData
        (⟨true, true, fun _ _ => .error "boom", fun _ => .ok "INSERT 1", true⟩ : ReplayEnv)
        ["x"] ["users.sql"] false none).1 = ["x"] := by
  refine ⟨rfl, ?_⟩
  exact (C3_replay_atomic
    (⟨true, true, fun _ _ => .error "boom", fun _ => .ok "INSERT 1", true⟩ : ReplayEnv)
    ["x"] ["users.sql"] false none).1 "truncating table users: boom" rfl

/-- `appendSection` appends its section's contribution on the right. -/
theorem appendSection_eq (parts : List String) (header : String) (stmts : List String) :
    appendSection parts header stmts = parts ++ sectionTail header stmts := by
  unfold appendSection sectionTail
  split
  · simp
  · simp

/-- Reflexivity of the prefix test. -/
theorem isPrefixB_refl : ∀ (l : List Char), isPrefixB l l = true := by
  intro l
  induction l with
  | nil => rfl
  | cons a as ih => simp [isPrefixB, ih]

/-- A prefix of `s` is still a prefix of `s ++ t`. -/
theorem isPrefixB_append : ∀ (p s t : List Char), isPrefixB p s = true →
    isPrefixB p (s ++ t) = true := by
  intro p
  induction p with
  | nil => intro s t _; rfl
  | cons a as ih =>
      intro s t hp
      cases s with
      | nil => simp [isPrefixB] at hp
      | cons b bs =>
          simp only [isPrefixB, Bool.and_eq_true] at hp
          simpa [isPrefixB, hp.1] using ih bs t hp.2

/-- The empty pattern occurs everywhere. -/
theorem containsSub_nil_pat : ∀ (l : List Char), containsSub l [] = true := by
  intro l
  cases l with
  | nil => rfl
  | cons a as => simp [containsSub, isPrefixB]

/-- An occurrence in the right part survives a left append. -/
theorem containsSub_append_right : ∀ (s t pat : List Char), containsSub t pat = true →
    containsSub (s ++ t) pat = true := by
  intro s
  induction s with
  | nil => intro t pat h; simpa using h
  | cons a as ih =>
      intro t pat h
      simp only [List.cons_append, containsSub, Bool.or_eq_true]
      right
      exact ih t pat h

/-- An occurrence in the left part survives a right append. -/
theorem containsSub_append_left : ∀ (s t pat : List Char), containsSub s pat = true →
    containsSub (s ++ t) pat = true := by
  intro s
  induction s with
  | nil =>
      intro t pat h
      cases pat with
      | nil => exact containsSub_nil_pat t
      | cons c cs => simp [containsSub, isPrefixB] at h
  | cons a as ih =>
      intro t pat h
      simp only [containsSub, Bool.or_eq_true] at h
      simp only [List.cons_append, containsSub, Bool.or_eq_true]
      rcases h with h | h
      · left
        exact isPrefixB_append pat (a :: as) t h
      · right
        exact ih t pat h

/-- Every string occurs in itself. -/
theorem containsStr_self (s : String) : containsStr s s = true := by
  unfold containsStr
  cases hd : s.data with
  | nil => rfl
  | cons a as =>
      simp only [containsSub, Bool.or_eq_true]
      left
      exact isPrefixB_refl (a :: as)

/-- Every member of a joined list occurs in the joined string. -/
theorem containsStr_joinSep : ∀ (l : List String) (x : String), x ∈ l →
    containsStr (joinSep "\n" l) x = true := by
  intro l
  induction l with
  | nil => intro x hx; cases hx
  | cons a rest ih =>
      intro x hx
      cases rest with
      | nil =>
          rcases List.mem_singleton.mp hx with rfl
          exact containsStr_self x
      | cons b bs =>
          rcases List.mem_cons.mp hx with rfl | hx2
          · show containsSub ((x ++ "\n" ++ joinSep "\n" (b :: bs))).data x.data = true
            rw [String.data_append, String.data_append]
            rw [List.append_assoc]
            have hself : containsSub x.data x.data = true := containsStr_self x
            exact containsSub_append_left _ _ _ hself
          · show containsSub ((a ++ "\n" ++ joinSep "\n" (b :: bs))).data x.data = true
            rw [String.data_append]
            exact containsSub_append_right _ _ _ (ih x hx2)

/-- Splitting a joined list of parts splits the joined text, with every
left-part member occurring in the left half and every right-part member
in the right half. -/
theorem joinSep_split : ∀ (l₁ l₂ : List String),
    ∃ ta tb : String, joinSep "\n" (l₁ ++ l₂) = ta ++ tb ∧
      (∀ x ∈ l₁, containsStr ta x = true) ∧ (∀ x ∈ l₂, containsStr tb x = true) := by
  intro l₁
  induction l₁ with
  | nil =>
      intro l₂
      refine ⟨"", joinSep "\n" l₂, by simp [String.empty_append], ?_, ?_⟩
      · intro x hx; cases hx
      · intro x hx; exact containsStr_joinSep l₂ x hx
  | cons a l₁ ih =>
      intro l₂
      cases hR : l₁ ++ l₂ with
      | nil =>
          have h1 : l₁ = [] := by cases l₁ <;> simp_all
          have h2 : l₂ = [] := by cases l₂ <;> simp_all
          subst h1; subst h2
          refine ⟨a, "", by simp [joinSep, String.append_empty], ?_, ?_⟩
          · intro x hx
            rcases List.mem_singleton.mp hx with rfl
            exact containsStr_self x
          · intro x hx; cases hx
      | cons r rs =>
          obtain ⟨ta, tb, heq, hm1, hm2⟩ := ih l₂
          refine ⟨a ++ "\n" ++ ta, tb, ?_, ?_, hm2⟩
          · have hj : joinSep "\n" (a :: (l₁ ++ l₂)) = a ++ "\n" ++ joinSep "\n" (l₁ ++ l₂) := by
              rw [hR]; rfl
            calc joinSep "\n" ((a :: l₁) ++ l₂) = a ++ "\n" ++ joinSep "\n" (l₁ ++ l₂) := hj
              _ = a ++ "\n" ++ (ta ++ tb) := by rw [heq]
              _ = a ++ "\n" ++ ta ++ tb := by simp [String.append_assoc]
          · intro x hx
            rcases List.mem_cons.mp hx with rfl | hx2
            · show containsSub ((x ++ "\n" ++ ta)).data x.data = true
              rw [String.data_append, String.data_append, List.append_assoc]
              exact containsSub_append_left _ _ _ (containsStr_self x)
            · show containsSub ((a ++ "\n" ++ ta)).data x.data = true
              rw [String.data_append]
              exact containsSub_append_right _ _ _ (hm1 x hx2)

/-- C5: `DumpSchema` emits the sixteen object groups in the fixed phase
order (schemas, extensions, enums, domains, composites, sequences,
non-SQL functions, tables, SQL functions, views, primary keys, unique
constraints, check constraints, foreign keys, indexes, triggers), and in
the produced DDL text every `CREATE TABLE` statement lies in a region
strictly before the region holding every FOREIGN KEY clause. -/
theorem C5_dump_phase_order (excl : List String) (cat : Catalog) :
    DumpSchemaParts excl cat =
      sectionTail "-- Schemas" (schemaStmts cat) ++
      sectionTail "-- Extensions" (extensionStmts cat) ++
      sectionTail "-- Enum types" (enumStmts cat) ++
      sectionTail "-- Domain types" (domainStmts cat) ++
      sectionTail "-- Composite types" (compositeStmts cat) ++
      sectionTail "-- Sequences" (sequenceStmts cat) ++
      sectionTail "-- Functions (PL/pgSQL)" (functionEarlyStmts cat) ++
      sectionTail "-- Tables" (tableStmts excl cat) ++
      sectionTail "-- Functions (SQL)" (functionLateStmts cat) ++
      sectionTail "-- Views" (viewStmts excl cat) ++
      sectionTail "-- Primary keys" (pkStmts excl cat) ++
      sectionTail "-- Unique constraints" (uniqueStmts excl cat) ++
      sectionTail "-- Check constraints" (checkStmts excl cat) ++
      sectionTail "-- Foreign keys" (fkStmts excl cat) ++
      sectionTail "-- Indexes" (indexStmts excl cat) ++
      sectionTail "-- Triggers" (triggerStmts excl cat) ∧
    ∃ ta tb : String, DumpSchema excl cat = ta ++ tb ∧
      (∀ ct ∈ tableStmts excl cat, containsStr ta ct = true) ∧
      (∀ fk ∈ fkStmts excl cat, containsStr tb fk = true) := by
  have horder : DumpSchemaParts excl cat =
      sectionTail "-- Schemas" (schemaStmts cat) ++
      sectionTail "-- Extensions" (extensionStmts cat) ++
      sectionTail "-- Enum types" (enumStmts cat) ++
      sectionTail "-- Domain types" (domainStmts cat) ++
      sectionTail "-- Composite types" (compositeStmts cat) ++
      sectionTail "-- Sequences" (sequenceStmts cat) ++
      sectionTail "-- Functions (PL/pgSQL)" (functionEarlyStmts cat) ++
      sectionTail "-- Tables" (tableStmts excl cat) ++
      sectionTail "-- Functions (SQL)" (functionLateStmts cat) ++
      sectionTail "-- Views" (viewStmts excl cat) ++
      sectionTail "-- Primary keys" (pkStmts excl cat) ++
      sectionTail "-- Unique constraints" (uniqueStmts excl cat) ++
      sectionTail "-- Check constraints" (checkStmts excl cat) ++
      sectionTail "-- Foreign keys" (fkStmts excl cat) ++
      sectionTail "-- Indexes" (indexStmts excl cat) ++
      sectionTail "-- Triggers" (triggerStmts excl cat) := by
    simp only [DumpSchemaParts, appendSection_eq, List.nil_append]
  refine ⟨horder, ?_⟩
  have hsplit : DumpSchemaParts excl cat =
      (sectionTail "-- Schemas" (schemaStmts cat) ++
       sectionTail "-- Extensions" (extensionStmts cat) ++
       sectionTail "-- Enum types" (enumStmts cat) ++
       sectionTail "-- Domain types" (domainStmts cat) ++
       sectionTail "-- Composite types" (compositeStmts cat) ++
       sectionTail "-- Sequences" (sequenceStmts cat) ++
       sectionTail "-- Functions (PL/pgSQL)" (functionEarlyStmts cat) ++
       sectionTail "-- Tables" (tableStmts excl cat)) ++
      (sectionTail "-- Functions (SQL)" (functionLateStmts cat) ++
       sectionTail "-- Views" (viewStmts excl cat) ++
       sectionTail "-- Primary keys" (pkStmts excl cat) ++
       sectionTail "-- Unique constraints" (uniqueStmts excl cat) ++
       sectionTail "-- Check constraints" (checkStmts excl cat) ++
       sectionTail "-- Foreign keys" (fkStmts excl cat) ++
       sectionTail "-- Indexes" (indexStmts excl cat) ++
       sectionTail "-- Triggers" (triggerStmts excl cat)) := by
    rw [horder]
    simp [List.append_assoc]
  obtain ⟨ta, tb, heq, hm1, hm2⟩ := joinSep_split
    (sectionTail "-- Schemas" (schemaStmts cat) ++
     sectionTail "-- Extensions" (extensionStmts cat) ++
     sectionTail "-- Enum types" (enumStmts cat) ++
     sectionTail "-- Domain types" (domainStmts cat) ++
     sectionTail "-- Composite types" (compositeStmts cat) ++
     sectionTail "-- Sequences" (sequenceStmts cat) ++
     sectionTail "-- Functions (PL/pgSQL)" (functionEarlyStmts cat) ++
     sectionTail "-- Tables" (tableStmts excl cat))
    (sectionTail "-- Functions (SQL)" (functionLateStmts cat) ++
     sectionTail "-- Views" (viewStmts excl cat) ++
     sectionTail "-- Primary keys" (pkStmts excl cat) ++
     sectionTail "-- Unique constraints" (uniqueStmts excl cat) ++
     sectionTail "-- Check constraints" (checkStmts excl cat) ++
     sectionTail "-- Foreign keys" (fkStmts excl cat) ++
     sectionTail "-- Indexes" (indexStmts excl cat) ++
     sectionTail "-- Triggers" (triggerStmts excl cat))
  refine ⟨ta, tb, ?_, ?_, ?_⟩
  · show joinSep "\n" (DumpSchemaParts excl cat) = ta ++ tb
    rw [hsplit]
    exact heq
  · intro ct hct
    apply hm1
    have hmem : ct ∈ sectionTail "-- Tables" (tableStmts excl cat) := by
      unfold sectionTail
      have hpos : (tableStmts excl cat).length > 0 := List.length_pos.mpr (by
        intro hnil
        rw [hnil] at hct
        cases hct)
      rw [if_pos hpos]
      exact List.mem_cons_of_mem _ (List.mem_append_left _ hct)
    simp only [List.mem_append]
    tauto
  · intro fk hfk
    apply hm2
    have hmem : fk ∈ sectionTail "-- Foreign keys" (fkStmts excl cat) := by
      unfold sectionTail
      have hpos : (fkStmts excl cat).length > 0 := List.length_pos.mpr (by
        intro hnil
        rw [hnil] at hfk
        cases hfk)
      rw [if_pos hpos]
      exact List.mem_cons_of_mem _ (List.mem_append_left _ hfk)
    simp only [List.mem_append]
    tauto

/-- Sorted insertion permutes. -/
theorem perm_orderedInsertStr (x : String) (l : List String) :
    (orderedInsertStr x l).Perm (x :: l) := by
  induction l with
  | nil => exact List.Perm.refl _
  | cons y ys ih =>
      by_cases h : leStr x y = true
      · simp [orderedInsertStr, h]
      · simp only [orderedInsertStr, h]
        exact (ih.cons y).trans (List.Perm.swap x y ys)

/-- The sort model permutes its input. -/
theorem perm_sortStrings (l : List String) : (sortStrings l).Perm l := by
  induction l with
  | nil => exact List.Perm.refl _
  | cons x xs ih => exact (perm_orderedInsertStr x (sortStrings xs)).trans (ih.cons x)

/-- Dependency entries relate in-set tables only. -/
theorem depsOf_subset_tables {tables : List String} {rows : List (String × String)}
    {t d : String} (h : d ∈ depsOf tables rows t) : d ∈ tables ∧ t ∈ tables := by
  simp only [depsOf, List.mem_map, List.mem_filter, Bool.and_eq_true, beq_iff_eq] at h
  obtain ⟨p, ⟨_, ⟨hpt, hp1⟩, hp2⟩, hpd⟩ := h
  subst hpd
  subst hpt
  constructor
  · simpa using hp2
  · simpa using hp1

/-- A scanned FK row between in-set tables contributes a dependency
entry. -/
theorem mem_depsOf_of_row {tables : List String} {rows : List (String × String)}
    {p : String × String} (hp : p ∈ rows) (h1 : p.1 ∈ tables) (h2 : p.2 ∈ tables) :
    p.2 ∈ depsOf tables rows p.1 := by
  simp only [depsOf, List.mem_map, List.mem_filter, Bool.and_eq_true, beq_iff_eq]
  refine ⟨p, ⟨hp, ⟨rfl, by simpa using h1⟩, by simpa using h2⟩, rfl⟩

/-- Discharging one emission from a counter: filtering out the newly
emitted table removes exactly its occurrence count. -/
theorem filter_count_step (l : List String) (E : List String) (x : String) (hx : x ∉ E) :
    ((l.filter (fun d => !(E.contains d))).length : Int) - (l.count x : Int) =
      ((l.filter (fun d => !((E ++ [x]).contains d))).length : Int) := by
  induction l with
  | nil => simp
  | cons d ds ih =>
      by_cases hdx : d = x
      · subst hdx
        have h1 : (!(E.contains d)) = true := by simpa using hx
        have h2 : (!((E ++ [d]).contains d)) = false := by simp
        simp only [List.filter_cons, h1, h2, List.count_cons, if_pos, beq_self_eq_true,
          if_true, List.length_cons]
        push_cast
        omega
      · have h2 : ((E ++ [x]).contains d) = (E.contains d) := by
          simp [hdx]
        have h3 : (d :: ds).count x = ds.count x := by
          simp [List.count_cons, hdx]
        rw [h3]
        simp only [List.filter_cons, h2]
        cases hE : (!(E.contains d)) with
        | false => simpa using ih
        | true =>
            rw [if_pos rfl, if_pos rfl]
            simp only [List.length_cons]
            push_cast
            push_cast at ih
            omega

/-- The occurrence count of an unemitted table is bounded by its
counter value. -/
theorem count_le_filter (l : List String) (E : List String) (x : String) (hx : x ∉ E) :
    (l.count x : Int) ≤ ((l.filter (fun d => !(E.contains d))).length : Int) := by
  have h := filter_count_step l E x hx
  have h2 : (0 : Int) ≤ ((l.filter (fun d => !((E ++ [x]).contains d))).length : Int) := by
    positivity
  omega

/-- Counter effect of the inner decrement fold: only the dependent's own
counter changes, decreased by the emitted table's occurrence count. -/
theorem innerFold_deg (other emitted : String) :
    ∀ (ds : List String) (deg : String → Int) (q : List String) (t : String),
      ((ds.foldl (decStep other emitted) (deg, q)).1) t =
        if t = other then deg other - (ds.count emitted : Int) else deg t := by
  intro ds
  induction ds with
  | nil =>
      intro deg q t
      simp only [List.foldl_nil, List.count_nil, Nat.cast_zero, sub_zero]
      by_cases h : t = other
      · subst h; simp
      · simp [h]
  | cons d ds ih =>
      intro deg q t
      simp only [List.foldl_cons]
      by_cases hd : d = emitted
      · subst hd
        simp only [decStep, beq_self_eq_true, if_true, if_pos rfl]
        have hgoal : ∀ q2 : List String,
            ((ds.foldl (decStep other d) (fun u => if u == other then deg other - 1 else deg u, q2)).1) t =
              if t = other then deg other - ((d :: ds).count d : Int) else deg t := by
          intro q2
          rw [ih]
          by_cases ht : t = other
          · subst ht
            simp only [if_pos rfl, beq_self_eq_true, if_true, List.count_cons,
              beq_self_eq_true, if_pos rfl]
            push_cast
            ring
          · have hbeq : (t == other) = false := by simpa using ht
            simp [ht, hbeq]
        by_cases hz : (deg other - 1 == 0) = true
        · rw [if_pos hz]; exact hgoal _
        · rw [if_neg hz]; exact hgoal _
      · have hbeq : (d == emitted) = false := by simpa using hd
        simp only [decStep, hbeq, Bool.false_eq_true, if_false]
        rw [ih]
        simp [List.count_cons, hd]

/-- Queue effect of the inner decrement fold: the dependent is enqueued
(and the queue re-sorted) exactly when its counter passes through zero,
i.e. when it was between 1 and the emitted table's occurrence count. -/
theorem innerFold_queue (other emitted : String) :
    ∀ (ds : List String) (deg : String → Int) (q : List String),
      ((ds.foldl (decStep other emitted) (deg, q)).2) =
        if 1 ≤ deg other ∧ deg other ≤ (ds.count emitted : Int) then
          sortStrings (q ++ [other])
        else q := by
  intro ds
  induction ds with
  | nil =>
      intro deg q
      simp only [List.foldl_nil, List.count_nil, Nat.cast_zero]
      rw [if_neg (by omega)]
  | cons d ds ih =>
      intro deg q
      simp only [List.foldl_cons]
      by_cases hd : d = emitted
      · subst hd
        simp only [decStep, beq_self_eq_true, if_true, if_pos rfl]
        have hcnt : ((d :: ds).count d : Int) = (ds.count d : Int) + 1 := by
          simp [List.count_cons]
        have hnn : (0 : Int) ≤ (ds.count d : Int) := by positivity
        by_cases hz : (deg other - 1 == 0) = true
        · rw [if_pos hz]
          have hdeg1 : deg other = 1 := by
            have h0 : deg other - 1 = 0 := by simpa using hz
            omega
          rw [ih]
          simp only [beq_self_eq_true, if_true, if_pos rfl]
          rw [if_neg (by omega), hcnt, if_pos (by omega)]
        · rw [if_neg hz]
          have hne1 : deg other - 1 ≠ 0 := by simpa using hz
          rw [ih]
          simp only [beq_self_eq_true, if_true, if_pos rfl]
          rw [hcnt]
          by_cases hc : 1 ≤ deg other - 1 ∧ deg other - 1 ≤ (ds.count d : Int)
          · rw [if_pos hc, if_pos (by omega)]
          · rw [if_neg hc, if_neg (by omega)]
      · have hbeq : (d == emitted) = false := by simpa using hd
        simp only [decStep, hbeq, Bool.false_eq_true, if_false]
        rw [ih]
        simp [List.count_cons, hd]

/-- Combined effect of the decrement pass over a duplicate-free key
list: every key's counter drops by the emitted table's occurrence count
among its dependencies, and the queue gains exactly the keys whose
counters passed through zero (up to the re-sorting permutation). -/
theorem outerFold_spec (tables : List String) (rows : List (String × String)) (emitted : String) :
    ∀ (K : List String), K.Nodup → ∀ (deg : String → Int) (q : List String),
      (∀ t, ((K.foldl (fun st other => (depsOf tables rows other).foldl (decStep other emitted) st) (deg, q)).1) t =
          if t ∈ K then deg t - ((depsOf tables rows t).count emitted : Int) else deg t) ∧
      ((K.foldl (fun st other => (depsOf tables rows other).foldl (decStep other emitted) st) (deg, q)).2).Perm
        (q ++ K.filter (fun other =>
          decide (1 ≤ deg other ∧ deg other ≤ ((depsOf tables rows other).count emitted : Int)))) := by
  intro K
  induction K with
  | nil =>
      intro _ deg q
      constructor
      · intro t; simp
      · simp
  | cons k K ih =>
      intro hK deg q
      obtain ⟨hkK, hK2⟩ := List.nodup_cons.mp hK
      have hdeg1 : ∀ t, ((depsOf tables rows k).foldl (decStep k emitted) (deg, q)).1 t =
          if t = k then deg k - ((depsOf tables rows k).count emitted : Int) else deg t :=
        fun t => innerFold_deg k emitted (depsOf tables rows k) deg q t
      have hq1 : ((depsOf tables rows k).foldl (decStep k emitted) (deg, q)).2 =
          if 1 ≤ deg k ∧ deg k ≤ ((depsOf tables rows k).count emitted : Int) then
            sortStrings (q ++ [k]) else q :=
        innerFold_queue k emitted (depsOf tables rows k) deg q
      obtain ⟨ihdeg, ihq⟩ := ih hK2
        ((depsOf tables rows k).foldl (decStep k emitted) (deg, q)).1
        ((depsOf tables rows k).foldl (decStep k emitted) (deg, q)).2
      rw [Prod.mk.eta] at ihdeg ihq
      constructor
      · intro t
        simp only [List.foldl_cons]
        rw [ihdeg t]
        by_cases htK : t ∈ K
        · have htk : t ≠ k := fun he => hkK (he ▸ htK)
          rw [if_pos htK, hdeg1 t, if_neg htk, if_pos (by simp [htK])]
        · rw [if_neg htK, hdeg1 t]
          by_cases htk : t = k
          · subst htk
            rw [if_pos rfl, if_pos (by simp)]
          · rw [if_neg htk, if_neg (by simp [htK, htk])]
      · simp only [List.foldl_cons]
        have hfiltereq : K.filter (fun other =>
              decide (1 ≤ ((depsOf tables rows k).foldl (decStep k emitted) (deg, q)).1 other ∧
                ((depsOf tables rows k).foldl (decStep k emitted) (deg, q)).1 other ≤
                  ((depsOf tables rows other).count emitted : Int))) =
            K.filter (fun other =>
              decide (1 ≤ deg other ∧ deg other ≤ ((depsOf tables rows other).count emitted : Int))) := by
          apply List.filter_congr
          intro x hx
          have hxk : x ≠ k := fun he => hkK (he ▸ hx)
          rw [hdeg1 x, if_neg hxk]
        rw [hfiltereq] at ihq
        by_cases hck : 1 ≤ deg k ∧ deg k ≤ ((depsOf tables rows k).count emitted : Int)
        · have hq1' : ((depsOf tables rows k).foldl (decStep k emitted) (deg, q)).2 =
              sortStrings (q ++ [k]) := by rw [hq1, if_pos hck]
          rw [hq1'] at ihq
          have hfk : (k :: K).filter (fun other =>
                decide (1 ≤ deg other ∧ deg other ≤ ((depsOf tables rows other).count emitted : Int))) =
              k :: K.filter (fun other =>
                decide (1 ≤ deg other ∧ deg other ≤ ((depsOf tables rows other).count emitted : Int))) := by
            simp only [List.filter_cons, decide_eq_true_eq]
            rw [if_pos hck]
          rw [hfk]
          refine ihq.trans ?_
          refine ((perm_sortStrings (q ++ [k])).append_right _).trans ?_
          rw [List.append_assoc]
          exact List.Perm.refl _
        · have hq1' : ((depsOf tables rows k).foldl (decStep k emitted) (deg, q)).2 = q := by
            rw [hq1, if_neg hck]
          rw [hq1'] at ihq
          have hfk : (k :: K).filter (fun other =>
                decide (1 ≤ deg other ∧ deg other ≤ ((depsOf tables rows other).count emitted : Int))) =
              K.filter (fun other =>
                decide (1 ≤ deg other ∧ deg other ≤ ((depsOf tables rows other).count emitted : Int))) := by
            simp only [List.filter_cons, decide_eq_true_eq]
            rw [if_neg hck]
          rw [hfk]
          exact ihq

/-- One Kahn emission preserves the loop invariant: popping the queue
head, appending it to the emitted list and running the decrement pass
yields a state satisfying the invariant again. -/
theorem kahnStep_inv (tables : List String) (rows : List (String × String)) (hT : tables.Nodup)
    (deg : String → Int) (table : String) (rest E : List String)
    (hinv : KahnInv tables rows deg (table :: rest) E) :
    KahnInv tables rows (processEmit tables rows table deg rest).1
      (processEmit tables rows table deg rest).2 (E ++ [table]) := by
  obtain ⟨h1, h2, h3, h4, h5, h6, h7⟩ := hinv
  obtain ⟨hEnd, hQnd, hdisj⟩ := List.nodup_append.mp h1
  have htT : table ∈ tables := h2 table (by simp)
  have htE : table ∉ E := fun h => hdisj h (by simp)
  have htrest : table ∉ rest := (List.nodup_cons.mp hQnd).1
  have hdeg_table : deg table = 0 := h4 table (by simp)
  have hdd : tables.dedup = tables := List.Nodup.dedup hT
  have hPE1 : ∀ t, (processEmit tables rows table deg rest).1 t =
      if t ∈ tables then deg t - ((depsOf tables rows t).count table : Int) else deg t := by
    intro t
    show ((tables.dedup).foldl _ (deg, rest)).1 t = _
    rw [hdd]
    exact (outerFold_spec tables rows table tables hT deg rest).1 t
  have hPE2 : (processEmit tables rows table deg rest).2.Perm
      (rest ++ tables.filter (fun other =>
        decide (1 ≤ deg other ∧ deg other ≤ ((depsOf tables rows other).count table : Int)))) := by
    show ((tables.dedup).foldl _ (deg, rest)).2.Perm _
    rw [hdd]
    exact (outerFold_spec tables rows table tables hT deg rest).2
  have hPsub : ∀ p ∈ tables.filter (fun other =>
      decide (1 ≤ deg other ∧ deg other ≤ ((depsOf tables rows other).count table : Int))),
      p ∈ tables := fun p hp => (List.mem_filter.mp hp).1
  have hPcond : ∀ p ∈ tables.filter (fun other =>
      decide (1 ≤ deg other ∧ deg other ≤ ((depsOf tables rows other).count table : Int))),
      1 ≤ deg p ∧ deg p ≤ ((depsOf tables rows p).count table : Int) := by
    intro p hp
    have := (List.mem_filter.mp hp).2
    simpa using this
  have hPnotE : ∀ p ∈ tables.filter (fun other =>
      decide (1 ≤ deg other ∧ deg other ≤ ((depsOf tables rows other).count table : Int))),
      p ∉ E := by
    intro p hp hpe
    have hle := h7 p hpe
    have hc := hPcond p hp
    omega
  have hPnotq : ∀ p ∈ tables.filter (fun other =>
      decide (1 ≤ deg other ∧ deg other ≤ ((depsOf tables rows other).count table : Int))),
      p ∉ (table :: rest) := by
    intro p hp hpq
    have h0 := h4 p hpq
    have hc := hPcond p hp
    omega
  have hPnd : (tables.filter (fun other =>
      decide (1 ≤ deg other ∧ deg other ≤ ((depsOf tables rows other).count table : Int)))).Nodup :=
    hT.filter _
  have hcnt_le : ∀ t ∈ tables, ((depsOf tables rows t).count table : Int) ≤ deg t := by
    intro t ht
    rw [h3 t ht]
    exact count_le_filter _ E table htE
  have hdeg_nonneg : ∀ t ∈ tables, 0 ≤ deg t := by
    intro t ht
    rw [h3 t ht]
    positivity
  have hbase_nd : ((E ++ [table]) ++ rest).Nodup := by
    rw [← List.append_cons]
    exact h1
  have hmem_q2 : ∀ x, x ∈ (processEmit tables rows table deg rest).2 ↔
      x ∈ rest ∨ x ∈ tables.filter (fun other =>
        decide (1 ≤ deg other ∧ deg other ≤ ((depsOf tables rows other).count table : Int))) := by
    intro x
    rw [hPE2.mem_iff, List.mem_append]
  refine ⟨?_, ?_, ?_, ?_, ?_, ?_, ?_⟩
  · -- Nodup
    have hperm : ((E ++ [table]) ++ (processEmit tables rows table deg rest).2).Perm
        ((E ++ [table]) ++ (rest ++ tables.filter (fun other =>
          decide (1 ≤ deg other ∧ deg other ≤ ((depsOf tables rows other).count table : Int))))) :=
      List.Perm.append_left _ hPE2
    rw [hperm.nodup_iff]
    rw [← List.append_assoc]
    apply List.Nodup.append hbase_nd hPnd
    intro x hx hxP
    rcases List.mem_append.mp hx with hx1 | hx2
    · rcases List.mem_append.mp hx1 with hxE | hxt
      · exact hPnotE x hxP hxE
      · have hxeq := List.mem_singleton.mp hxt
        subst hxeq
        exact hPnotq x hxP (List.mem_cons_self x rest)
    · exact hPnotq x hxP (List.mem_cons_of_mem _ hx2)
  · -- membership in tables
    intro t ht
    rcases List.mem_append.mp ht with ht1 | ht2
    · rcases List.mem_append.mp ht1 with htE2 | htt
      · exact h2 t (List.mem_append_left _ htE2)
      · rcases List.mem_singleton.mp htt with rfl
        exact htT
    · rcases (hmem_q2 t).mp ht2 with hr | hp
      · exact h2 t (List.mem_append_right _ (List.mem_cons_of_mem _ hr))
      · exact hPsub t hp
  · -- counter formula
    intro t ht
    rw [hPE1 t, if_pos ht, h3 t ht]
    exact filter_count_step _ E table htE
  · -- queued counters are zero
    intro t ht
    rcases (hmem_q2 t).mp ht with hr | hp
    · have htT2 : t ∈ tables := h2 t (List.mem_append_right _ (List.mem_cons_of_mem _ hr))
      have h0 : deg t = 0 := h4 t (List.mem_cons_of_mem _ hr)
      have hle := hcnt_le t htT2
      have hnn : (0 : Int) ≤ ((depsOf tables rows t).count table : Int) := by positivity
      rw [hPE1 t, if_pos htT2]
      omega
    · have htT2 : t ∈ tables := hPsub t hp
      have hc := hPcond t hp
      have hle := hcnt_le t htT2
      rw [hPE1 t, if_pos htT2]
      omega
  · -- unemitted unqueued counters are nonzero
    intro t ht htE2 htq
    have htnE : t ∉ E := fun h => htE2 (List.mem_append_left _ h)
    have htnt : t ≠ table := fun h => htE2 (List.mem_append_right _ (by simp [h]))
    have htnr : t ∉ rest := fun h => htq ((hmem_q2 t).mpr (Or.inl h))
    have htnP : t ∉ tables.filter (fun other =>
        decide (1 ≤ deg other ∧ deg other ≤ ((depsOf tables rows other).count table : Int))) :=
      fun h => htq ((hmem_q2 t).mpr (Or.inr h))
    have hne : deg t ≠ 0 := h5 t ht htnE (by
      intro hmem
      rcases List.mem_cons.mp hmem with h | h
      · exact htnt h
      · exact htnr h)
    have hnc : ¬(1 ≤ deg t ∧ deg t ≤ ((depsOf tables rows t).count table : Int)) := by
      intro hc
      exact htnP (List.mem_filter.mpr ⟨ht, by simpa using hc⟩)
    have hnn := hdeg_nonneg t ht
    rw [hPE1 t, if_pos ht]
    omega
  · -- ordering
    intro t ht d hd
    rcases List.mem_append.mp ht with htE2 | htt
    · obtain ⟨hdE, hidx⟩ := h6 t htE2 d hd
      refine ⟨List.mem_append_left _ hdE, ?_⟩
      rw [List.indexOf_append_of_mem hdE, List.indexOf_append_of_mem htE2]
      exact hidx
    · rcases List.mem_singleton.mp htt with rfl
      have hc0 : (((depsOf tables rows t).filter (fun d => !(E.contains d))).length : Int) = 0 := by
        rw [← h3 t htT]
        exact hdeg_table
      have hfilnil : (depsOf tables rows t).filter (fun d => !(E.contains d)) = [] := by
        have : ((depsOf tables rows t).filter (fun d => !(E.contains d))).length = 0 := by
          exact_mod_cast hc0
        exact List.length_eq_zero.mp this
      have hdE : d ∈ E := by
        by_contra hdnE
        have hmem : d ∈ (depsOf tables rows t).filter (fun d => !(E.contains d)) :=
          List.mem_filter.mpr ⟨hd, by simpa using hdnE⟩
        rw [hfilnil] at hmem
        cases hmem
      refine ⟨List.mem_append_left _ hdE, ?_⟩
      rw [List.indexOf_append_of_mem hdE]
      rw [List.indexOf_append_of_not_mem htE]
      simp only [List.indexOf_cons_self, Nat.add_zero]
      exact List.indexOf_lt_length.mpr hdE
  · -- emitted counters nonpositive
    intro t ht
    rcases List.mem_append.mp ht with htE2 | htt
    · have hle := h7 t htE2
      rw [hPE1 t]
      by_cases htT2 : t ∈ tables
      · rw [if_pos htT2]
        have : (0 : Int) ≤ ((depsOf tables rows t).count table : Int) := by positivity
        omega
      · rw [if_neg htT2]
        exact hle
    · rcases List.mem_singleton.mp htt with rfl
      rw [hPE1 t, if_pos htT]
      have : (0 : Int) ≤ ((depsOf tables rows t).count t : Int) := by positivity
      omega

/-- Master specification of the Kahn worklist loop: starting from any
invariant-satisfying state with adequate fuel, the loop returns an
extension of the emitted list that is duplicate-free, drawn from the
working set, ordered so that every dependency of an emitted table is
emitted strictly before it, and such that any in-set table left out has
a left-out dependency. -/
theorem kahnLoop_spec (tables : List String) (rows : List (String × String)) (hT : tables.Nodup) :
    ∀ (fuel : Nat) (deg : String → Int) (q E : List String),
      KahnInv tables rows deg q E →
      tables.length < fuel + E.length →
      (∃ suffix, kahnLoop tables rows fuel deg q E = E ++ suffix) ∧
      (kahnLoop tables rows fuel deg q E).Nodup ∧
      (∀ t ∈ kahnLoop tables rows fuel deg q E, t ∈ tables) ∧
      (∀ t ∈ kahnLoop tables rows fuel deg q E, ∀ d ∈ depsOf tables rows t,
        d ∈ kahnLoop tables rows fuel deg q E ∧
          (kahnLoop tables rows fuel deg q E).indexOf d <
            (kahnLoop tables rows fuel deg q E).indexOf t) ∧
      (∀ t ∈ tables, t ∉ kahnLoop tables rows fuel deg q E →
        ∃ d ∈ depsOf tables rows t, d ∉ kahnLoop tables rows fuel deg q E) := by
  intro fuel
  induction fuel with
  | zero =>
      intro deg q E hinv hfuel
      exfalso
      obtain ⟨h1, h2, _, _, _, _, _⟩ := hinv
      obtain ⟨hEnd, _, _⟩ := List.nodup_append.mp h1
      have hsub : E ⊆ tables := fun x hx => h2 x (List.mem_append_left _ hx)
      have := (List.Nodup.subperm hEnd hsub).length_le
      omega
  | succ fuel ih =>
      intro deg q E hinv hfuel
      cases q with
      | nil =>
          have hres : kahnLoop tables rows (fuel + 1) deg [] E = E := rfl
          rw [hres]
          obtain ⟨h1, h2, h3, h4, h5, h6, h7⟩ := hinv
          obtain ⟨hEnd, _, _⟩ := List.nodup_append.mp h1
          refine ⟨⟨[], by simp⟩, hEnd, ?_, ?_, ?_⟩
          · intro t ht; exact h2 t (List.mem_append_left _ ht)
          · intro t ht d hd; exact h6 t ht d hd
          · intro t ht htR
            have hne := h5 t ht htR (by simp)
            have hlen0 : ((depsOf tables rows t).filter (fun d => !(E.contains d))).length ≠ 0 := by
              intro h0
              apply hne
              rw [h3 t ht, h0]
              simp
            obtain ⟨d, hd⟩ := List.exists_mem_of_length_pos (Nat.pos_of_ne_zero hlen0)
            obtain ⟨hd1, hd2⟩ := List.mem_filter.mp hd
            exact ⟨d, hd1, by simpa using hd2⟩
      | cons table rest =>
          have hstep := kahnStep_inv tables rows hT deg table rest E hinv
          have hres : kahnLoop tables rows (fuel + 1) deg (table :: rest) E =
              kahnLoop tables rows fuel (processEmit tables rows table deg rest).1
                (processEmit tables rows table deg rest).2 (E ++ [table]) := rfl
          rw [hres]
          have hlen : tables.length < fuel + (E ++ [table]).length := by
            simp only [List.length_append, List.length_singleton]
            omega
          obtain ⟨⟨suffix, hsfx⟩, hnd, hsub, hord, hcomp⟩ := ih _ _ _ hstep hlen
          exact ⟨⟨[table] ++ suffix, by rw [hsfx]; simp⟩, hnd, hsub, hord, hcomp⟩

/-- Specification of `getImportOrder`: the loop result is duplicate-free
and drawn from the working set, its order respects dependencies, every
left-out in-set table has a left-out dependency, and the function's
value is the loop result with the (possibly empty) remainder appended in
input order. -/
theorem getImportOrder_spec (tables : List String) (rows : List (String × String))
    (hT : tables.Nodup) :
    ∃ R : List String, R.Nodup ∧ (∀ t ∈ R, t ∈ tables) ∧
      (∀ t ∈ R, ∀ d ∈ depsOf tables rows t, d ∈ R ∧ R.indexOf d < R.indexOf t) ∧
      (∀ t ∈ tables, t ∉ R → ∃ d ∈ depsOf tables rows t, d ∉ R) ∧
      getImportOrder tables rows =
        (if R.length < tables.length then R ++ tables.filter (fun t => !(R.contains t))
         else R) := by
  cases hemp : tables.isEmpty with
  | true =>
      have htnil : tables = [] := List.isEmpty_iff.mp hemp
      subst htnil
      refine ⟨[], List.nodup_nil, ?_, ?_, ?_, ?_⟩
      · intro t ht; cases ht
      · intro t ht; cases ht
      · intro t ht; cases ht
      · simp [getImportOrder]
  | false =>
      have hinv0 : KahnInv tables rows (fun t => ((depsOf tables rows t).length : Int))
          (sortStrings (tables.filter (fun t =>
            (((depsOf tables rows t).length : Int)) == 0))) [] := by
        have hqperm := perm_sortStrings (tables.filter (fun t =>
          (((depsOf tables rows t).length : Int)) == 0))
        refine ⟨?_, ?_, ?_, ?_, ?_, ?_, ?_⟩
        · simp only [List.nil_append]
          rw [hqperm.nodup_iff]
          exact hT.filter _
        · intro t ht
          simp only [List.nil_append] at ht
          exact (List.mem_filter.mp (hqperm.mem_iff.mp ht)).1
        · intro t _
          simp
        · intro t ht
          have := (List.mem_filter.mp (hqperm.mem_iff.mp ht)).2
          simpa using this
        · intro t ht _ htq
          intro h0
          apply htq
          apply hqperm.mem_iff.mpr
          apply List.mem_filter.mpr
          refine ⟨ht, by simpa using h0⟩
        · intro t ht; cases ht
        · intro t ht; cases ht
      have hfuel : tables.length < 2 * tables.length + 1 + ([] : List String).length := by
        simp
        omega
      obtain ⟨_, hnd, hsub, hord, hcomp⟩ :=
        kahnLoop_spec tables rows hT (2 * tables.length + 1)
          (fun t => ((depsOf tables rows t).length : Int))
          (sortStrings (tables.filter (fun t =>
            (((depsOf tables rows t).length : Int)) == 0))) [] hinv0 hfuel
      refine ⟨kahnLoop tables rows (2 * tables.length + 1)
          (fun t => ((depsOf tables rows t).length : Int))
          (sortStrings (tables.filter (fun t =>
            (((depsOf tables rows t).length : Int)) == 0))) [],
        hnd, hsub, hord, hcomp, ?_⟩
      simp only [getImportOrder, hemp, Bool.false_eq_true, if_false]

/-- C2: for every duplicate-free table set whose in-set dependency
relation is strictly acyclic (expressed as accessibility of every in-set
table under the "is depended on by" relation), `getImportOrder` places
every referenced table strictly before every table that references it;
the Kahn counter of each table is by construction initialized to the
number of its own in-set dependency entries, not its dependents. -/
theorem C2_topological_order (tables : List String) (rows : List (String × String))
    (hT : tables.Nodup)
    (hacc : ∀ t ∈ tables, Acc (fun a b => DependsOn tables rows b a) t) :
    ∀ p ∈ rows, p.1 ∈ tables → p.2 ∈ tables →
      (getImportOrder tables rows).indexOf p.2 < (getImportOrder tables rows).indexOf p.1 := by
  obtain ⟨R, hnd, hsub, hord, hcomp, hval⟩ := getImportOrder_spec tables rows hT
  have hall : ∀ t ∈ tables, t ∈ R := by
    intro t ht
    by_contra htR
    have key : ∀ u, Acc (fun a b => DependsOn tables rows b a) u →
        u ∈ tables → u ∉ R → False := by
      intro u hu
      induction hu with
      | intro x hx ihx =>
          intro hxT hxR
          obtain ⟨d, hd, hdR⟩ := hcomp x hxT hxR
          exact ihx d hd (depsOf_subset_tables hd).1 hdR
    exact key t (hacc t ht) ht htR
  have hlen1 := (List.Nodup.subperm hnd (fun x hx => hsub x hx)).length_le
  have hlen2 := (List.Nodup.subperm hT (fun x hx => hall x hx)).length_le
  have hval2 : getImportOrder tables rows = R := by
    rw [hval, if_neg (by omega)]
  intro p hp h1 h2
  rw [hval2]
  exact (hord p.1 (hall p.1 h1) p.2 (mem_depsOf_of_row hp h1 h2)).2

/-- Witness for C2 at the spec's Scenario A: `parent` precedes `child`
in the computed import order. -/
theorem C2_witness :
    (["public.child", "public.parent"] : List String).Nodup ∧
    (getImportOrder ["public.child", "public.parent"]
        [("public.child", "public.parent")]).indexOf "public.parent" <
      (getImportOrder ["public.child", "public.parent"]
        [("public.child", "public.parent")]).indexOf "public.child" := by
  refine ⟨by decide, ?_⟩
  have haccP : Acc (fun a b => DependsOn ["public.child", "public.parent"]
      [("public.child", "public.parent")] b a) "public.parent" := by
    constructor
    intro d hd
    exfalso
    have hnil : depsOf ["public.child", "public.parent"] [("public.child", "public.parent")]
        "public.parent" = [] := by decide
    have hd2 : d ∈ depsOf ["public.child", "public.parent"]
        [("public.child", "public.parent")] "public.parent" := hd
    rw [hnil] at hd2
    cases hd2
  have hkey : ∀ t d : String, DependsOn ["public.child", "public.parent"]
      [("public.child", "public.parent")] t d → d = "public.parent" := by
    intro t d hd
    simp only [DependsOn, depsOf, List.mem_map, List.mem_filter] at hd
    obtain ⟨p, ⟨hp, _⟩, hpd⟩ := hd
    rcases List.mem_singleton.mp hp with rfl
    exact hpd.symm
  have hacc : ∀ t ∈ (["public.child", "public.parent"] : List String),
      Acc (fun a b => DependsOn ["public.child", "public.parent"]
        [("public.child", "public.parent")] b a) t := by
    intro t _
    constructor
    intro d hd
    rcases hkey t d hd with rfl
    exact haccP
  exact C2_topological_order ["public.child", "public.parent"]
    [("public.child", "public.parent")] (by decide) hacc
    ("public.child", "public.parent") (by decide) (by decide) (by decide)

/-- C9 counterexample: on an input table list with a duplicate name, the
returned list does not contain every input table exactly once — the
duplicated table is emitted twice — refuting the claim for arbitrary
input lists. -/
theorem C9_counterexample :
    ¬ (∀ t ∈ (["a", "a"] : List String), (getImportOrder ["a", "a"] []).count t = 1) := by
  decide

/-- C9 (amended): for every duplicate-free input table list and every
FK edge set, including cyclic ones, `getImportOrder` returns a
permutation of the input — every input table exactly once, with tables
left unordered by the loop appended rather than dropped. -/
theorem C9_perm (tables : List String) (rows : List (String × String)) (hT : tables.Nodup) :
    (getImportOrder tables rows).Perm tables := by
  obtain ⟨R, hnd, hsub, _, _, hval⟩ := getImportOrder_spec tables rows hT
  rw [hval]
  by_cases hlt : R.length < tables.length
  · rw [if_pos hlt]
    have hperm1 : R.Perm (tables.filter (fun t => R.contains t)) := by
      apply List.Subperm.antisymm
      · apply List.Nodup.subperm hnd
        intro x hx
        exact List.mem_filter.mpr ⟨hsub x hx, by simpa using hx⟩
      · apply List.Nodup.subperm (hT.filter _)
        intro x hx
        have := (List.mem_filter.mp hx).2
        simpa using this
    have hperm2 : (tables.filter (fun t => R.contains t) ++
        tables.filter (fun t => !(R.contains t))).Perm tables :=
      List.filter_append_perm _ tables
    exact (hperm1.append_right _).trans hperm2
  · rw [if_neg hlt]
    have hsp := List.Nodup.subperm hnd (fun x hx => hsub x hx)
    exact hsp.perm_of_length_le (by omega)

/-- Witness for C9 on a two-table FK cycle: the output is a permutation
of the input. -/
theorem C9_witness :
    (["a", "b"] : List String).Nodup ∧
    (getImportOrder ["a", "b"] [("a", "b"), ("b", "a")]).Perm ["a", "b"] :=
  ⟨by decide, C9_perm ["a", "b"] [("a", "b"), ("b", "a")] (by decide)⟩

end Seedup
